import Mathlib

/-!
Verification development for the discovery/indexing engine of the
claude-session-vs-code-extension repository.

Strings are modelled as lists of characters (`Str`), JavaScript string
methods as explicit list functions, and each streaming file pass as a fold
over a list of decoded transcript lines.  A line that was blank, failed
`JSON.parse`, or parsed to a non-object is modelled by `Line.bad`, since all
three are skipped identically by every pass.  JSON fields whose value is not
a string are modelled as `none`, because every use site in the source guards
with `typeof x === "string"` (or `toNonEmptySingleLine`, which returns
`undefined` for non-strings).
-/

/-- Strings as lists of characters. -/
abbrev Str := List Char

/-- Membership in the JavaScript `\s` character class, restricted to the
ASCII whitespace characters (space, tab, line feed, vertical tab, form feed,
carriage return); the transcripts and claims only involve ASCII. -/
def isWs (c : Char) : Bool :=
  c == ' ' || c == '\t' || c == '\n' || c == '\r' ||
  c == Char.ofNat 11 || c == Char.ofNat 12

/-- JavaScript `String.prototype.trim`: drop whitespace from both ends. -/
def trimWs (l : Str) : Str :=
  ((l.dropWhile isWs).reverse.dropWhile isWs).reverse

/-- JavaScript `s.replace(/\s+/g, " ")`: collapse every maximal run of
whitespace characters into a single space (a space is emitted at the last
character of each run). -/
def collapseWs : Str → Str
  | [] => []
  | [c] => if isWs c then [' '] else [c]
  | a :: b :: rest =>
    if isWs a then
      if isWs b then collapseWs (b :: rest) else ' ' :: collapseWs (b :: rest)
    else a :: collapseWs (b :: rest)

/-- JavaScript `s.replace(/\s+/g, " ").trim()`: single-line whitespace
normalization as used throughout `title.ts` and `content.ts`. -/
def normWs (l : Str) : Str :=
  trimWs (collapseWs l)

/-- A character list in which every whitespace character is a space that is
not immediately followed by another whitespace character. -/
def noWsRun : Str → Bool
  | [] => true
  | [c] => !isWs c || c == ' '
  | a :: b :: rest =>
    (if isWs a then a == ' ' && !isWs b else true) && noWsRun (b :: rest)

/-! ## Title resolution (`src/discovery/title.ts`) -/

/-- JavaScript `rawPrompt.split(/\r?\n/u)`: split on `"\r\n"` or `"\n"`
(a lone carriage return is an ordinary character). -/
def splitLines : Str → List Str
  | [] => [[]]
  | '\r' :: '\n' :: rest => [] :: splitLines rest
  | '\n' :: rest => [] :: splitLines rest
  | c :: rest =>
    match splitLines rest with
    | [] => [[c]]
    | g :: gs => (c :: g) :: gs

/-- Split a string at the first `'>'`, returning the characters before it and
the characters after it; `none` when there is no `'>'`.  Helper for the tag
stripping regex `/<[^>]+>/g` of `buildTitle`. -/
def splitAtGt : Str → Option (Str × Str)
  | [] => none
  | c :: rest =>
    if c = '>' then some ([], rest)
    else
      match splitAtGt rest with
      | some (a, b) => some (c :: a, b)
      | none => none

/-- One left-to-right pass of JavaScript `replace(/<[^>]+>/g, " ")`: at each
`'<'`, if a later `'>'` exists with at least one character in between, the
whole `<...>` span is replaced by one space and scanning resumes after the
`'>'`; otherwise the character is kept.  `fuel` only bounds the recursion
(each step consumes at least one input character, so `l.length` is enough);
it is set by the `stripTags` wrapper below. -/
def stripTagsGo : Nat → Str → Str
  | 0, l => l
  | _ + 1, [] => []
  | fuel + 1, c :: rest =>
    if c = '<' then
      match splitAtGt rest with
      | some (between, after) =>
        if between.isEmpty then c :: stripTagsGo fuel rest
        else ' ' :: stripTagsGo fuel after
      | none => c :: stripTagsGo fuel rest
    else c :: stripTagsGo fuel rest

/-- JavaScript `firstLine.replace(/<[^>]+>/g, " ")`. -/
def stripTags (l : Str) : Str :=
  stripTagsGo l.length l

/-- `toNonEmptySingleLine` from `title.ts`: whitespace-normalize a string
value and return it only when non-empty.  A JSON value that is not a string
is modelled as `none` (the source returns `undefined` for non-strings). -/
def toNonEmptySingleLine : Option Str → Option Str
  | none => none
  | some v =>
    let normalized := normWs v
    if 0 < normalized.length then some normalized else none

/-- `buildTitle` from `title.ts`: first non-blank line, tags stripped,
whitespace collapsed and trimmed; falls back to `"Session " ++` the first 8
characters of the session id; truncates to 77 characters plus `"..."` when
the sanitized text exceeds 80 characters. -/
def buildTitle (rawPrompt sessionId : Str) : Str :=
  let firstLine :=
    ((splitLines rawPrompt).map trimWs).find? (fun line => decide (0 < line.length))
  let fallback := "Session ".data ++ sessionId.take 8
  match firstLine with
  | none => fallback
  | some fl =>
    let sanitized := normWs (stripTags fl)
    if sanitized.length = 0 then fallback
    else if sanitized.length ≤ 80 then sanitized
    else sanitized.take 77 ++ "...".data

/-- The argument record of `chooseSessionTitleRaw` (`SessionTitleSourceOptions`
in `types.ts`). -/
structure SessionTitleSourceOptions where
  latestExplicitTitle : Option Str
  firstPromptRaw : Option Str
  firstUserRaw : Option Str

/-- `chooseSessionTitleRaw` from `title.ts`: a non-blank explicit title wins;
else the first displayable prompt; else the first user text of any kind. -/
def chooseSessionTitleRaw (options : SessionTitleSourceOptions) : Option Str :=
  match toNonEmptySingleLine options.latestExplicitTitle with
  | some explicit => some explicit
  | none =>
    match options.firstPromptRaw with
    | some p =>
      if (trimWs p).length ≠ 0 then some p
      else
        match options.firstUserRaw with
        | some u => if (trimWs u).length ≠ 0 then some u else none
        | none => none
    | none =>
      match options.firstUserRaw with
      | some u => if (trimWs u).length ≠ 0 then some u else none
      | none => none

/-- Strip a literal pattern from the front of a string (case-sensitive). -/
def stripPre (pat l : Str) : Option Str :=
  if pat.isPrefixOf l then some (l.drop pat.length) else none

/-- Strip a literal pattern from the front of a string, comparing characters
case-insensitively (models a case-insensitive regex over ASCII literals). -/
def stripPreCI : Str → Str → Option Str
  | [], l => some l
  | _ :: _, [] => none
  | p :: ps, c :: cs => if p.toLower = c.toLower then stripPreCI ps cs else none

/-- Split a string at the first occurrence of a literal pattern, returning
the part before the match and the part after it (models the leftmost match
of a literal, and of a lazy `([\s\S]*?)` group bounded by literals). -/
def firstSplit (pat : Str) : Str → Option (Str × Str)
  | [] => if pat.isEmpty then some ([], []) else none
  | c :: rest =>
    if pat.isPrefixOf (c :: rest) then some ([], (c :: rest).drop pat.length)
    else
      match firstSplit pat rest with
      | some (a, b) => some (c :: a, b)
      | none => none

/-- Test of `/<command-name>\s*\/rename\s*<\/command-name>/u` at one start
position: the literal open tag, optional whitespace, `/rename`, optional
whitespace, the literal close tag. -/
def renameMarkerAt (l : Str) : Bool :=
  match stripPre "<command-name>".data l with
  | none => false
  | some r1 =>
    match stripPre "/rename".data (r1.dropWhile isWs) with
    | none => false
    | some r2 => ("</command-name>".data).isPrefixOf (r2.dropWhile isWs)

/-- Test of `/<command-name>\s*\/rename\s*<\/command-name>/u` anywhere in
the string. -/
def containsRenameMarker : Str → Bool
  | [] => renameMarkerAt []
  | c :: rest => renameMarkerAt (c :: rest) || containsRenameMarker rest

/-- `parseRenameCommandArgs` from `title.ts`: when the `/rename` command
marker is present, the single-line-normalized contents of the first
`<command-args>...</command-args>` span, if non-empty. -/
def parseRenameCommandArgs (rawPrompt : Str) : Option Str :=
  if containsRenameMarker rawPrompt then
    match firstSplit "<command-args>".data rawPrompt with
    | none => none
    | some (_, rest) =>
      match firstSplit "</command-args>".data rest with
      | none => none
      | some (middle, _) => toNonEmptySingleLine (some middle)
  else none

/-- The remainder of `stdoutText` after the case-insensitive prefix
`/^Session(?: and agent)? renamed to:\s*/iu`, or `none` when the prefix does
not match.  The optional group is tried greedily first, matching the regex
engine's backtracking. -/
def renameRemainder (st : Str) : Option Str :=
  match stripPreCI "Session".data st with
  | none => none
  | some r1 =>
    match (stripPreCI " and agent".data r1).bind (stripPreCI " renamed to:".data) with
    | some r2 => some (r2.dropWhile isWs)
    | none =>
      match stripPreCI " renamed to:".data r1 with
      | some r2 => some (r2.dropWhile isWs)
      | none => none

/-- `parseRenameStdoutTitle` from `title.ts`: the normalized contents of the
first `<local-command-stdout>` span, accepted only when it starts with the
rename-confirmation prefix; returns the non-empty normalized remainder. -/
def parseRenameStdoutTitle (rawPrompt : Str) : Option Str :=
  match firstSplit "<local-command-stdout>".data rawPrompt with
  | none => none
  | some (_, rest) =>
    match firstSplit "</local-command-stdout>".data rest with
    | none => none
    | some (middle, _) =>
      match toNonEmptySingleLine (some middle) with
      | none => none
      | some stdoutText =>
        match renameRemainder stdoutText with
        | none => none
        | some remainder => toNonEmptySingleLine (some remainder)

/-! ## Transcript record classifier (`src/discovery/content.ts`) -/

/-- One element of an array-shaped `content` payload: a plain string, an
object with an optional string `text` field, or anything else. -/
inductive ContentPart where
  | str (s : Str)
  | obj (text : Option Str)
  | other
deriving DecidableEq

/-- A `content` payload: plain string, array of parts, single object with an
optional string `text` field, or anything else (including absent). -/
inductive ContentVal where
  | str (s : Str)
  | arr (parts : List ContentPart)
  | obj (text : Option Str)
  | undef
deriving DecidableEq

/-- Text extracted from one array element in `extractText`. -/
def partText : ContentPart → Str
  | .str s => s
  | .obj (some t) => t
  | .obj none => []
  | .other => []

/-- JavaScript `Array.prototype.join("\n")` on a list of strings. -/
def joinSep : List Str → Str
  | [] => []
  | [t] => t
  | t :: u :: rest => t ++ '\n' :: joinSep (u :: rest)

/-- `extractText` from `content.ts`: string content passes through; arrays
keep the non-empty extracted text of each element, joined with newlines;
a single object yields its `text` field; anything else yields the empty
string. -/
def extractText : ContentVal → Str
  | .str s => s
  | .arr parts => joinSep ((parts.map partText).filter (fun p => decide (0 < p.length)))
  | .obj (some t) => t
  | .obj none => []
  | .undef => []

/-- The nine hidden-prefix markers of `isDisplayableUserPrompt`. -/
def hiddenMarkers : List Str :=
  ["<local-command-caveat>".data, "<command-name>".data, "<command-message>".data,
   "<command-args>".data, "<local-command-stdout>".data, "<local-command-stderr>".data,
   "<local-command-exit-code>".data, "<usage>".data, "agentId:".data]

/-- `isDisplayableUserPrompt` from `content.ts`: whitespace-normalize; empty
text is not displayable; otherwise displayable iff the normalized text does
not start with any of the nine internal-command markers. -/
def isDisplayableUserPrompt (rawPrompt : Str) : Bool :=
  let normalized := normWs rawPrompt
  if normalized.length = 0 then false
  else !(hiddenMarkers.any (fun marker => marker.isPrefixOf normalized))

/-! ## Transcript records and lines -/

/-- The `message` object of a user/assistant record: an optional string
`role` and a `content` payload (absent content is `ContentVal.undef`). -/
structure MessageVal where
  role : Option Str
  content : ContentVal
deriving DecidableEq

/-- One decoded transcript record (`TranscriptRecord` in `types.ts`).
Fields whose JSON value is not a string are modelled as `none`, since every
use site guards with `typeof x === "string"` or `toNonEmptySingleLine`. -/
structure TRecord where
  type : Option Str := none
  sessionId : Option Str := none
  cwd : Option Str := none
  timestamp : Option Str := none
  uuid : Option Str := none
  customTitle : Option Str := none
  agentName : Option Str := none
  message : Option MessageVal := none
deriving DecidableEq

/-- One physical line of a transcript file.  `bad` stands for a blank line,
a line that fails `JSON.parse`, or a line whose JSON value is not an object:
all three are skipped identically by every pass. -/
inductive Line where
  | bad
  | record (r : TRecord)
deriving DecidableEq

/-- The extracted text of a record's message content, empty when the
record has no message. -/
def recText (r : TRecord) : Str :=
  match r.message with
  | some m => extractText m.content
  | none => extractText ContentVal.undef

/-- The `message.role` of a record, if any. -/
def recRole (r : TRecord) : Option Str :=
  match r.message with
  | some m => m.role
  | none => none

/-! ## Session parser (`src/discovery/parseSession.ts`) -/

/-- `ParsedSession` from `types.ts`. -/
structure ParsedSession where
  sessionId : Str
  cwd : Str
  titleSourceRaw : Str
deriving DecidableEq

/-- The loop state of `parseTranscriptFile`. -/
structure SessState where
  sessionId : Option Str := none
  cwd : Option Str := none
  firstPromptRaw : Option Str := none
  firstUserRaw : Option Str := none
  latestExplicitTitle : Option Str := none
deriving DecidableEq

/-- The first-non-blank-`sessionId` adoption of one `parseTranscriptFile`
loop iteration. -/
def sidStep (st : SessState) (r : TRecord) : SessState :=
  match st.sessionId, r.sessionId with
  | none, some s => if (trimWs s).length ≠ 0 then { st with sessionId := some s } else st
  | _, _ => st

/-- The first-non-blank-`cwd` adoption of one `parseTranscriptFile` loop
iteration. -/
def cwdStep (st : SessState) (r : TRecord) : SessState :=
  match st.cwd, r.cwd with
  | none, some s => if (trimWs s).length ≠ 0 then { st with cwd := some s } else st
  | _, _ => st

/-- The `custom-title` / `agent-name` handling of one `parseTranscriptFile`
loop iteration: each, when present and non-blank, becomes the new latest
explicit title. -/
def titleRecordStep (st : SessState) (r : TRecord) : SessState :=
  let st :=
    if r.type = some "custom-title".data then
      match toNonEmptySingleLine r.customTitle with
      | some t => { st with latestExplicitTitle := some t }
      | none => st
    else st
  if r.type = some "agent-name".data then
    match toNonEmptySingleLine r.agentName with
    | some t => { st with latestExplicitTitle := some t }
    | none => st
  else st

/-- First-user-text adoption inside the user branch of
`parseTranscriptFile`. -/
def firstUserUpd (st : SessState) (text : Str) : SessState :=
  if st.firstUserRaw.isNone then { st with firstUserRaw := some text } else st

/-- First-displayable-prompt adoption inside the user branch of
`parseTranscriptFile`. -/
def firstPromptUpd (st : SessState) (text : Str) : SessState :=
  if st.firstPromptRaw.isNone ∧ isDisplayableUserPrompt text then
    { st with firstPromptRaw := some text }
  else st

/-- The `/rename` command-args signal update inside the user branch of
`parseTranscriptFile`. -/
def renameArgsUpd (st : SessState) (text : Str) : SessState :=
  match parseRenameCommandArgs text with
  | some t => { st with latestExplicitTitle := some t }
  | none => st

/-- The rename-confirmation stdout signal update inside the user branch of
`parseTranscriptFile` (runs after the command-args update, so it
overrides). -/
def renameStdoutUpd (st : SessState) (text : Str) : SessState :=
  match parseRenameStdoutTitle text with
  | some t => { st with latestExplicitTitle := some t }
  | none => st

/-- The user-record handling of one `parseTranscriptFile` loop iteration:
for non-blank extracted text, update the first-user / first-displayable-
prompt slots and scan for rename signals (command-args first, then rename
stdout, the latter overriding). -/
def userStep (st : SessState) (r : TRecord) : SessState :=
  if r.type = some "user".data ∧ recRole r = some "user".data then
    if (trimWs (recText r)).length ≠ 0 then
      renameStdoutUpd
        (renameArgsUpd (firstPromptUpd (firstUserUpd st (recText r)) (recText r)) (recText r))
        (recText r)
    else st
  else st

/-- One loop iteration of `parseTranscriptFile` on a line, in source order:
identity adoption, then `custom-title` / `agent-name`, then the user-record
branch. -/
def sessStep (st : SessState) (l : Line) : SessState :=
  match l with
  | .bad => st
  | .record r => userStep (titleRecordStep (cwdStep (sidStep st r) r) r) r

/-- `parseTranscriptFile` from `parseSession.ts` as a fold over the decoded
lines: yields a session only when both a session id and a cwd were found;
the title source is chosen by `chooseSessionTitleRaw` (empty when none). -/
def parseTranscriptFile (lines : List Line) : Option ParsedSession :=
  let st := lines.foldl sessStep {}
  match st.sessionId, st.cwd with
  | some sid, some c =>
    some {
      sessionId := sid
      cwd := c
      titleSourceRaw :=
        (chooseSessionTitleRaw {
          latestExplicitTitle := st.latestExplicitTitle
          firstPromptRaw := st.firstPromptRaw
          firstUserRaw := st.firstUserRaw }).getD [] }
  | _, _ => none

/-! ## Prompt parser (`src/discovery/parsePrompts.ts`) -/

/-- `SessionPrompt` from `types.ts`.  `timestampMs` is produced by the
`dateParse` parameter, which models `Date.parse` composed with the
`Number.isFinite` guard (so `none` stands for `undefined`). -/
structure SessionPrompt where
  promptId : Str
  sessionId : Str
  promptRaw : Str
  promptTitle : Str
  responseRaw : Option Str := none
  timestampIso : Option Str := none
  timestampMs : Option Int := none
deriving DecidableEq

/-- `MAX_RESPONSE_LENGTH` from `parsePrompts.ts`. -/
def MAX_RESPONSE_LENGTH : Nat := 50000

/-- One loop iteration of `parseAllUserPrompts` on a decoded line.  The
state is the emitted prompt list plus `promptIndex`.  Assistant text is
appended (newline-separated) to the last emitted prompt while its response
is below the 50,000-character cap, slicing to exactly the cap on overflow;
displayable non-blank user text emits a new prompt. -/
def promptsStep (dateParse : Str → Option Int) (fallbackSessionId : Str)
    (st : List SessionPrompt × Nat) (l : Line) : List SessionPrompt × Nat :=
  match l with
  | .bad => st
  | .record r =>
    let (prompts, promptIndex) := st
    if r.type = some "assistant".data ∧ recRole r = some "assistant".data then
      let responseText := recText r
      match prompts.getLast? with
      | some prev =>
        if (trimWs responseText).length ≠ 0 then
          let existing := prev.responseRaw.getD []
          if existing.length < MAX_RESPONSE_LENGTH then
            let combined :=
              if existing.length ≠ 0 then existing ++ '\n' :: responseText else responseText
            let newResp :=
              if combined.length > MAX_RESPONSE_LENGTH then combined.take MAX_RESPONSE_LENGTH
              else combined
            (prompts.dropLast ++ [{ prev with responseRaw := some newResp }], promptIndex)
          else (prompts, promptIndex)
        else (prompts, promptIndex)
      | none => (prompts, promptIndex)
    else if r.type = some "user".data ∧ recRole r = some "user".data then
      let promptRaw := recText r
      if (trimWs promptRaw).length = 0 then (prompts, promptIndex)
      else if !(isDisplayableUserPrompt promptRaw) then (prompts, promptIndex)
      else
        let timestampMs := r.timestamp.bind dateParse
        let sessionId :=
          match r.sessionId with
          | some s => if (trimWs s).length ≠ 0 then s else fallbackSessionId
          | none => fallbackSessionId
        let promptId :=
          match r.uuid with
          | some u =>
            if (trimWs u).length ≠ 0 then u
            else fallbackSessionId ++ ':' :: (Nat.repr promptIndex).data
          | none => fallbackSessionId ++ ':' :: (Nat.repr promptIndex).data
        (prompts ++ [{
            promptId := promptId
            sessionId := sessionId
            promptRaw := promptRaw
            promptTitle := buildTitle promptRaw fallbackSessionId
            responseRaw := none
            timestampIso := r.timestamp
            timestampMs := timestampMs }], promptIndex + 1)
    else (prompts, promptIndex)

/-- `parseAllUserPrompts` from `parsePrompts.ts` as a fold over the decoded
lines of one transcript file. -/
def parseAllUserPrompts (dateParse : Str → Option Int) (lines : List Line)
    (fallbackSessionId : Str) : List SessionPrompt :=
  (lines.foldl (promptsStep dateParse fallbackSessionId) ([], 0)).1

/-! ## Content extractor (`parseSessionContent` in `src/search/parseContent.ts`) -/

/-- `CONTENT_CAP_CHARS` from `parseContent.ts`. -/
def CONTENT_CAP_CHARS : Nat := 200 * 1024

/-- The line loop of `parseSessionContent`: displayable non-blank user text
and non-blank assistant text are pushed whole onto `parts`; after each push
the cumulative length is compared with the cap, and reading stops (returning
`true` for the capped flag) once it reaches it. -/
def contentAux : List Line → List Str → Nat → List Str × Bool
  | [], parts, _ => (parts, false)
  | l :: rest, parts, totalLength =>
    match l with
    | .bad => contentAux rest parts totalLength
    | .record r =>
      if r.type = some "user".data ∧ recRole r = some "user".data then
        let text := recText r
        if (trimWs text).length = 0 then contentAux rest parts totalLength
        else if !(isDisplayableUserPrompt text) then contentAux rest parts totalLength
        else if totalLength + text.length ≥ CONTENT_CAP_CHARS then (parts ++ [text], true)
        else contentAux rest (parts ++ [text]) (totalLength + text.length)
      else if r.type = some "assistant".data ∧ recRole r = some "assistant".data then
        let text := recText r
        if (trimWs text).length = 0 then contentAux rest parts totalLength
        else if totalLength + text.length ≥ CONTENT_CAP_CHARS then (parts ++ [text], true)
        else contentAux rest (parts ++ [text]) (totalLength + text.length)
      else contentAux rest parts totalLength

/-- The chunks collected by `parseSessionContent`, together with the capped
flag (`true` iff the cap-reached log line is emitted). -/
def sessionContentParts (lines : List Line) : List Str × Bool :=
  contentAux lines [] 0

/-- `parseSessionContent` from `parseContent.ts`: the collected chunks
joined with newline separators. -/
def parseSessionContent (lines : List Line) : Str :=
  joinSep (sessionContentParts lines).1

/-! ## Path containment (`src/discovery/pathUtils.ts`)

`path.resolve` (Node, posix) is modelled explicitly: a path that does not
start with the separator is first joined onto the process working directory
`osCwd` (assumed absolute, as `process.cwd()` always is); then segments are
normalized left to right, with `""` and `"."` dropped and `".."` popping the
previous segment.  The platform is non-Windows (`process.platform` is not
`"win32"`), so no lowercasing happens. -/

/-- Split a path on every `'/'`. -/
def splitSep : Str → List Str
  | [] => [[]]
  | c :: rest =>
    if c = '/' then [] :: splitSep rest
    else
      match splitSep rest with
      | [] => [[c]]
      | g :: gs => (c :: g) :: gs

/-- Process one path segment during normalization. -/
def resolveStep (stk : List Str) (seg : Str) : List Str :=
  if seg = [] ∨ seg = ['.'] then stk
  else if seg = ['.', '.'] then stk.dropLast
  else stk ++ [seg]

/-- Join path segments with `'/'`. -/
def joinSlash : List Str → Str
  | [] => []
  | [g] => g
  | g :: h :: t => g ++ '/' :: joinSlash (h :: t)

/-- Node's `path.resolve(p)` on posix with process working directory
`cwd`. -/
def posixResolve (cwd p : Str) : Str :=
  let full := if p.head? = some '/' then p else cwd ++ '/' :: p
  '/' :: joinSlash ((splitSep full).foldl resolveStep [])

/-- `normalizeFsPath` from `pathUtils.ts` on a non-Windows platform. -/
def normalizeFsPath (cwd fsPath : Str) : Str :=
  posixResolve cwd fsPath

/-- `isPathWithin` from `pathUtils.ts`: equal after normalization, or the
candidate extends the root across a separator boundary. -/
def isPathWithin (cwd candidatePath rootPath : Str) : Bool :=
  let normalizedCandidate := normalizeFsPath cwd candidatePath
  let normalizedRoot := normalizeFsPath cwd rootPath
  normalizedCandidate == normalizedRoot ||
    (normalizedRoot ++ ['/']).isPrefixOf normalizedCandidate

/-! ## Discovery service (`src/discovery/service.ts`) -/

/-- A workspace folder: `uriKey` models `folder.uri.toString()` (the map
key) and `fsPath` models `folder.uri.fsPath`. -/
structure WFolder where
  uriKey : Str
  fsPath : Str
deriving DecidableEq

/-- `SessionNode` from `models.ts` (the constant `kind: "session"` tag is
omitted). -/
structure SessionNode where
  sessionId : Str
  cwd : Str
  transcriptPath : Str
  title : Str
  updatedAt : Nat
deriving DecidableEq

/-- `TranscriptCandidate` from `types.ts`. -/
structure TranscriptCandidate where
  transcriptPath : Str
  updatedAt : Nat
  parsed : ParsedSession
deriving DecidableEq

/-- `CachedPromptList` from `types.ts`. -/
structure CachedPromptList where
  mtimeMs : Nat
  prompts : List SessionPrompt
deriving DecidableEq

/-- One transcript file as the service sees it: its path, its decoded
lines, and the result of `fs.stat` (`none` models a stat failure). -/
structure FileEntry where
  path : Str
  lines : List Line
  statMtime : Option Nat
deriving DecidableEq

/-- JavaScript `Map.get`: first binding of the key, if any. -/
def alGet {α : Type} (m : List (Str × α)) (k : Str) : Option α :=
  match m with
  | [] => none
  | (k', v) :: rest => if k' = k then some v else alGet rest k

/-- JavaScript `Map.set`: replace in place when the key exists (preserving
insertion order), else append. -/
def alSet {α : Type} (m : List (Str × α)) (k : Str) (v : α) : List (Str × α) :=
  match m with
  | [] => [(k, v)]
  | (k', v') :: rest => if k' = k then (k', v) :: rest else (k', v') :: alSet rest k v

/-- The keys of a JavaScript map, in insertion order. -/
def alKeys {α : Type} (m : List (Str × α)) : List Str :=
  m.map (·.1)

/-- The values of a JavaScript map, in insertion order. -/
def alValues {α : Type} (m : List (Str × α)) : List α :=
  m.map (·.2)

/-- Stable insertion of `x` into a sorted list: `x` goes before the first
element `y` with `le x y`. -/
def stableInsert {α : Type} (le : α → α → Bool) (x : α) : List α → List α
  | [] => [x]
  | y :: ys => if le x y then x :: y :: ys else y :: stableInsert le x ys

/-- Stable sort by the boolean comparison `le`; models JavaScript
`Array.prototype.sort` (spec-mandated stable) for a comparator that induces
the total preorder `le`. -/
def stableSort {α : Type} (le : α → α → Bool) : List α → List α
  | [] => []
  | x :: xs => stableInsert le x (stableSort le xs)

/-- `matchWorkspace` from `service.ts` / `parseSession.ts`: the folders
containing the session's normalized `cwd`, sorted by descending `fsPath`
length (stable), first one taken — the most specific containing folder. -/
def matchWorkspace (osCwd sessionCwd : Str) (workspaceFolders : List WFolder) :
    Option WFolder :=
  let normalizedCwd := normalizeFsPath osCwd sessionCwd
  let matching :=
    stableSort (fun a b => decide (b.fsPath.length ≤ a.fsPath.length))
      (workspaceFolders.filter
        (fun folder => isPathWithin osCwd normalizedCwd (normalizeFsPath osCwd folder.fsPath)))
  matching.head?

/-- `DiscoveryResult` from `types.ts`; the map is in insertion order. -/
structure DiscoveryResult where
  sessionsByWorkspace : List (Str × List SessionNode)
  globalInfoMessage : Option Str
deriving DecidableEq

/-- The info message of `discover` when no workspace folder is open. -/
def openFolderMessage : Str :=
  "Open a folder to view Claude sessions.".data

/-- The info message of `discover` when the projects root is missing. -/
def noHistoryMessage (projectsRoot : Str) : Str :=
  "No Claude project history found at ".data ++ projectsRoot ++ ".".data

/-- The `SessionNode` built from a candidate in `discover`. -/
def candidateNode (c : TranscriptCandidate) : SessionNode :=
  { sessionId := c.parsed.sessionId
    cwd := c.parsed.cwd
    transcriptPath := c.transcriptPath
    title := buildTitle c.parsed.titleSourceRaw c.parsed.sessionId
    updatedAt := c.updatedAt }

/-- The candidate-accumulation loop of `discover` (steps of lines 42-61):
parse each collected file, then stat it; a file whose parse yields no
session, or whose stat fails, is skipped. -/
def discoverCandidates (files : List FileEntry) : List TranscriptCandidate :=
  files.filterMap (fun f =>
    match parseTranscriptFile f.lines with
    | none => none
    | some parsed =>
      match f.statMtime with
      | none => none
      | some m => some { transcriptPath := f.path, updatedAt := m, parsed := parsed })

/-- The per-candidate dedup step of `discover` (lines 68-93): place the
candidate's node in its matched workspace's per-session map unless an entry
with the same session id and a modification time at least as new exists. -/
def dedupStep (osCwd : Str) (workspaceFolders : List WFolder)
    (m : List (Str × List (Str × SessionNode))) (c : TranscriptCandidate) :
    List (Str × List (Str × SessionNode)) :=
  match matchWorkspace osCwd c.parsed.cwd workspaceFolders with
  | none => m
  | some targetWorkspace =>
    let workspaceKey := targetWorkspace.uriKey
    let node := candidateNode c
    match alGet m workspaceKey with
    | none => m
    | some sessions =>
      match alGet sessions node.sessionId with
      | none => alSet m workspaceKey (alSet sessions node.sessionId node)
      | some existing =>
        if existing.updatedAt < node.updatedAt then
          alSet m workspaceKey (alSet sessions node.sessionId node)
        else m

/-- `discover` from `service.ts` as a pure function of the process working
directory, the projects root path, whether the root exists, the open
workspace folders, and the collected transcript files (each with decoded
lines and stat outcome). -/
def discover (osCwd projectsRoot : Str) (workspaceFolders : List WFolder)
    (rootExists : Bool) (files : List FileEntry) : DiscoveryResult :=
  let sessionsByWorkspace :=
    workspaceFolders.foldl (fun m w => alSet m w.uriKey ([] : List SessionNode)) []
  if workspaceFolders.isEmpty then
    { sessionsByWorkspace := sessionsByWorkspace
      globalInfoMessage := some openFolderMessage }
  else if !rootExists then
    { sessionsByWorkspace := sessionsByWorkspace
      globalInfoMessage := some (noHistoryMessage projectsRoot) }
  else
    let candidates := discoverCandidates files
    let byWorkspaceAndSession :=
      workspaceFolders.foldl
        (fun m w => alSet m w.uriKey ([] : List (Str × SessionNode))) []
    let byWorkspaceAndSession :=
      candidates.foldl (dedupStep osCwd workspaceFolders) byWorkspaceAndSession
    let final :=
      workspaceFolders.foldl
        (fun m w =>
          let list := alValues ((alGet byWorkspaceAndSession w.uriKey).getD [])
          alSet m w.uriKey
            (stableSort (fun a b => decide (b.updatedAt ≤ a.updatedAt)) list))
        sessionsByWorkspace
    { sessionsByWorkspace := final, globalInfoMessage := none }

/-- The observable outcome of one `getUserPrompts` call: the returned
prompt list, the prompt cache afterwards, whether the line-parsing pass ran
(instrumenting the cache-miss branch), and whether a stat failure was
logged. -/
structure GetPromptsOutcome where
  prompts : List SessionPrompt
  cache : List (Str × CachedPromptList)
  reparsed : Bool
  loggedStatFailure : Bool
deriving DecidableEq

/-- `getUserPrompts` from `service.ts` as a pure function of the prompt
cache, the stat outcome for the session's transcript path, and the file's
decoded lines: on stat failure log and return an empty list; on a cache hit
(equal mtime) return the cached list; otherwise parse and overwrite the
cache entry under the new mtime. -/
def getUserPrompts (dateParse : Str → Option Int)
    (promptCacheByPath : List (Str × CachedPromptList)) (statMtime : Option Nat)
    (lines : List Line) (session : SessionNode) : GetPromptsOutcome :=
  match statMtime with
  | none =>
    { prompts := [], cache := promptCacheByPath, reparsed := false,
      loggedStatFailure := true }
  | some mtimeMs =>
    let cached := alGet promptCacheByPath session.transcriptPath
    match cached with
    | some c =>
      if c.mtimeMs = mtimeMs then
        { prompts := c.prompts, cache := promptCacheByPath, reparsed := false,
          loggedStatFailure := false }
      else
        let prompts := parseAllUserPrompts dateParse lines session.sessionId
        { prompts := prompts
          cache := alSet promptCacheByPath session.transcriptPath
            { mtimeMs := mtimeMs, prompts := prompts }
          reparsed := true
          loggedStatFailure := false }
    | none =>
      let prompts := parseAllUserPrompts dateParse lines session.sessionId
      { prompts := prompts
        cache := alSet promptCacheByPath session.transcriptPath
          { mtimeMs := mtimeMs, prompts := prompts }
        reparsed := true
        loggedStatFailure := false }

/-! ## Derived characterizations used by the claim theorems -/

/-- Left-biased choice on options (JavaScript `a ?? b` / first-wins). -/
def oor {A : Type} (a b : Option A) : Option A :=
  match a with
  | some x => some x
  | none => b

/-- The sanitization pipeline of `buildTitle` applied to an input: the first
non-blank line (if any), tag-like `<...>` substrings stripped, whitespace
collapsed and trimmed. -/
def sanitizedForm (rawPrompt : Str) : Option Str :=
  (((splitLines rawPrompt).map trimWs).find? (fun line => decide (0 < line.length))).map
    (fun fl => normWs (stripTags fl))

/-- The non-blank string `sessionId` carried by a record, if any. -/
def recSessionId (r : TRecord) : Option Str :=
  match r.sessionId with
  | some s => if (trimWs s).length ≠ 0 then some s else none
  | none => none

/-- The non-blank string `cwd` carried by a record, if any. -/
def recCwd (r : TRecord) : Option Str :=
  match r.cwd with
  | some s => if (trimWs s).length ≠ 0 then some s else none
  | none => none

/-- The non-blank string `sessionId` supplied by a line, if any (the value
`parseTranscriptFile` would adopt from this line). -/
def lineSessionId (l : Line) : Option Str :=
  match l with
  | .bad => none
  | .record r => recSessionId r

/-- The non-blank string `cwd` supplied by a line, if any. -/
def lineCwd (l : Line) : Option Str :=
  match l with
  | .bad => none
  | .record r => recCwd r

/-- The first non-blank `sessionId` in file order. -/
def firstSessionId (lines : List Line) : Option Str :=
  lines.findSome? lineSessionId

/-- The first non-blank `cwd` in file order. -/
def firstCwd (lines : List Line) : Option Str :=
  lines.findSome? lineCwd

/-- The explicit-title signal contributed by a `custom-title` or
`agent-name` record, if any. -/
def recTitleSignal (r : TRecord) : Option Str :=
  if r.type = some "custom-title".data then toNonEmptySingleLine r.customTitle
  else if r.type = some "agent-name".data then toNonEmptySingleLine r.agentName
  else none

/-- The explicit-title signal contributed by a user record's rename markers,
if any: the rename-confirmation stdout title overrides the `/rename`
command-args title when both occur in the same text. -/
def userSignal (r : TRecord) : Option Str :=
  if r.type = some "user".data ∧ recRole r = some "user".data then
    if (trimWs (recText r)).length ≠ 0 then
      oor (parseRenameStdoutTitle (recText r)) (parseRenameCommandArgs (recText r))
    else none
  else none

/-- The explicit-title signal a line contributes, if any: a non-blank
`custom-title`, a non-blank `agent-name`, or — for a user record with
non-blank text — a rename-stdout title (which overrides) or a rename
command-args title. -/
def lineSignal (l : Line) : Option Str :=
  match l with
  | .bad => none
  | .record r => oor (userSignal r) (recTitleSignal r)

/-- The last explicit-title signal in file order, if any. -/
def lastExplicitSignal (lines : List Line) : Option Str :=
  lines.reverse.findSome? lineSignal

/-- Total character count of a list of strings. -/
def sumLens (parts : List Str) : Nat :=
  (parts.map List.length).sum

/-- The length of appending one more response chunk of length `t` onto an
accumulated response of length `cur` (a newline separator is added unless
the accumulator is empty). -/
def addLen (cur t : Nat) : Nat :=
  if cur = 0 then t else cur + 1 + t

/-- The accumulated response length after feeding chunks of the given
lengths through the 50,000-character response cap of
`parseAllUserPrompts`. -/
def capLen : Nat → List Nat → Nat
  | cur, [] => cur
  | cur, t :: rest =>
    if cur < MAX_RESPONSE_LENGTH then
      capLen (min (addLen cur t) MAX_RESPONSE_LENGTH) rest
    else cur

/-- A user record line with string content `u` and no other fields, as in
the response-cap scenario. -/
def mkUserLine (u : Str) : Line :=
  Line.record { type := some "user".data,
                message := some { role := some "user".data, content := ContentVal.str u } }

/-- An assistant record line with string content `t`. -/
def mkAsstLine (t : Str) : Line :=
  Line.record { type := some "assistant".data,
                message := some { role := some "assistant".data, content := ContentVal.str t } }

/-- An identity-establishing record line carrying a session id and a cwd. -/
def mkSysLine (sid cwd : String) : Line :=
  Line.record { sessionId := some sid.data, cwd := some cwd.data }

/-- The newline-joined combination of an accumulated response and one more
assistant chunk (`combined` in `parseAllUserPrompts`). -/
def respCombine (existing t : Str) : Str :=
  if existing.length ≠ 0 then existing ++ '\n' :: t else t

/-- The capped new response value (`newResp` in `parseAllUserPrompts`). -/
def respNew (existing t : Str) : Str :=
  if (respCombine existing t).length > MAX_RESPONSE_LENGTH then
    (respCombine existing t).take MAX_RESPONSE_LENGTH
  else respCombine existing t

/-! ## Lemmas: whitespace normalization -/

theorem noWsRun_tail {c : Char} {l : Str} (h : noWsRun (c :: l) = true) :
    noWsRun l = true := by
  cases l with
  | nil => rfl
  | cons b rest =>
    simp only [noWsRun, Bool.and_eq_true] at h
    exact h.2

theorem noWsRun_cons_ws {c : Char} {l : Str}
    (h : noWsRun (c :: l) = true) (hc : isWs c = true) :
    c = ' ' ∧ (∀ b ∈ l.head?, isWs b = false) := by
  cases l with
  | nil =>
    simp only [noWsRun, hc, Bool.not_true, Bool.false_or, beq_iff_eq] at h
    exact ⟨h, by simp⟩
  | cons b rest =>
    simp only [noWsRun, hc, if_true, Bool.and_eq_true, beq_iff_eq,
      Bool.not_eq_true'] at h
    exact ⟨h.1.1, by simpa using h.1.2⟩

theorem dropWhile_eq_self_of_head {l : Str} (p : Char → Bool)
    (h : ∀ b ∈ l.head?, p b = false) : l.dropWhile p = l := by
  cases l with
  | nil => rfl
  | cons b rest =>
    have hb : p b = false := h b (by simp)
    simp [List.dropWhile, hb]

theorem noWsRun_cons_of_not_ws {c : Char} {l : Str}
    (hc : isWs c = false) (h : noWsRun l = true) : noWsRun (c :: l) = true := by
  cases l with
  | nil => simp [noWsRun, hc]
  | cons b rest => simp [noWsRun, hc, h]

theorem head_dropWhile_not_ws (l : Str) :
    ∀ b ∈ (l.dropWhile isWs).head?, isWs b = false := by
  induction l with
  | nil => simp
  | cons c rest ih =>
    by_cases hc : isWs c = true
    · simpa [List.dropWhile, hc] using ih
    · simp only [Bool.not_eq_true] at hc
      simp [List.dropWhile, hc]

theorem collapseWs_cons_not_ws {b : Char} (rest : Str) (hb : isWs b = false) :
    ∃ t, collapseWs (b :: rest) = b :: t := by
  cases rest with
  | nil => exact ⟨[], by simp [collapseWs, hb]⟩
  | cons r rs => exact ⟨collapseWs (r :: rs), by simp [collapseWs, hb]⟩

theorem collapseWs_eq_self {l : Str} (h : noWsRun l = true) :
    collapseWs l = l := by
  induction l with
  | nil => rfl
  | cons a t ih =>
    cases t with
    | nil =>
      by_cases ha : isWs a = true
      · obtain ⟨has, -⟩ := noWsRun_cons_ws h ha
        simp [collapseWs, ha, has]
      · simp only [Bool.not_eq_true] at ha
        simp [collapseWs, ha]
    | cons b rest =>
      have htail : noWsRun (b :: rest) = true := noWsRun_tail h
      by_cases ha : isWs a = true
      · obtain ⟨has, hhead⟩ := noWsRun_cons_ws h ha
        have hb : isWs b = false := hhead b (by simp)
        simp [collapseWs, ha, hb, ih htail, has]
      · simp only [Bool.not_eq_true] at ha
        simp [collapseWs, ha, ih htail]

theorem noWsRun_collapseWs (l : Str) : noWsRun (collapseWs l) = true := by
  induction l with
  | nil => rfl
  | cons a t ih =>
    cases t with
    | nil =>
      by_cases ha : isWs a = true
      · simp only [collapseWs, ha, if_true]
        decide
      · simp only [Bool.not_eq_true] at ha
        simp only [collapseWs, ha, Bool.false_eq_true, if_false]
        simp [noWsRun, ha]
    | cons b rest =>
      by_cases ha : isWs a = true
      · by_cases hb : isWs b = true
        · simpa [collapseWs, ha, hb] using ih
        · simp only [Bool.not_eq_true] at hb
          obtain ⟨t, ht⟩ := collapseWs_cons_not_ws rest hb
          have hrun : noWsRun (b :: t) = true := ht ▸ ih
          simp [collapseWs, ha, hb, ht, noWsRun, hrun]
      · simp only [Bool.not_eq_true] at ha
        simp only [collapseWs, ha, Bool.false_eq_true, if_false]
        exact noWsRun_cons_of_not_ws ha ih

theorem noWsRun_of_isPrefix {p l : Str} (hp : p <+: l)
    (h : noWsRun l = true) : noWsRun p = true := by
  induction p generalizing l with
  | nil => rfl
  | cons a p' ih =>
    obtain ⟨t, rfl⟩ := hp
    cases p' with
    | nil =>
      cases t with
      | nil => simpa using h
      | cons b bs =>
        simp only [List.cons_append, List.nil_append, noWsRun,
          Bool.and_eq_true] at h
        by_cases ha : isWs a = true
        · simp only [ha, if_true, Bool.and_eq_true, beq_iff_eq] at h
          simp [noWsRun, ha, h.1.1]
        · simp only [Bool.not_eq_true] at ha
          simp [noWsRun, ha]
    | cons b p'' =>
      have hpair : (if isWs a then a == ' ' && !isWs b else true) = true := by
        simp only [List.cons_append, noWsRun, Bool.and_eq_true] at h
        exact h.1
      have htail : noWsRun (b :: p'') = true := by
        have h2 : noWsRun ((b :: p'') ++ t) = true := by
          simp only [List.cons_append, noWsRun, Bool.and_eq_true] at h
          simpa using h.2
        exact ih (by exact ⟨t, rfl⟩) h2
      simp [noWsRun, hpair, htail]

theorem noWsRun_of_isSuffix {s l : Str} (hs : s <:+ l)
    (h : noWsRun l = true) : noWsRun s = true := by
  obtain ⟨t, rfl⟩ := hs
  induction t with
  | nil => simpa using h
  | cons a t' ih =>
    exact ih (noWsRun_tail (by simpa using h))

theorem trimWs_isPrefix (l : Str) : trimWs l <+: l.dropWhile isWs := by
  have hsuf : (l.dropWhile isWs).reverse.dropWhile isWs <:+ (l.dropWhile isWs).reverse :=
    List.dropWhile_suffix isWs
  obtain ⟨t, ht⟩ := hsuf
  refine ⟨t.reverse, ?_⟩
  unfold trimWs
  have hrw : ((l.dropWhile isWs).reverse.dropWhile isWs).reverse ++ t.reverse
      = (t ++ (l.dropWhile isWs).reverse.dropWhile isWs).reverse := by
    simp
  rw [hrw, ht, List.reverse_reverse]

theorem head_trimWs_not_ws (l : Str) :
    ∀ b ∈ (trimWs l).head?, isWs b = false := by
  intro b hb
  rw [Option.mem_def] at hb
  obtain ⟨t, ht⟩ := trimWs_isPrefix l
  have hhead : (l.dropWhile isWs).head? = some b := by
    rw [← ht]
    cases hcase : trimWs l with
    | nil => rw [hcase] at hb; simp at hb
    | cons x xs =>
      rw [hcase] at hb
      simp only [List.head?_cons, Option.some.injEq] at hb
      simp [hb]
  exact head_dropWhile_not_ws l b (Option.mem_def.mpr hhead)

theorem getLast_trimWs_not_ws (l : Str) :
    ∀ b ∈ (trimWs l).getLast?, isWs b = false := by
  intro b hb
  have : (trimWs l).getLast? = ((l.dropWhile isWs).reverse.dropWhile isWs).head? := by
    unfold trimWs
    rw [List.getLast?_reverse]
  rw [this] at hb
  exact head_dropWhile_not_ws (l.dropWhile isWs).reverse b hb

theorem noWsRun_trimWs {l : Str} (h : noWsRun l = true) :
    noWsRun (trimWs l) = true := by
  have h1 : noWsRun (l.dropWhile isWs) = true :=
    noWsRun_of_isSuffix (List.dropWhile_suffix isWs) h
  exact noWsRun_of_isPrefix (trimWs_isPrefix l) h1

theorem trimWs_eq_self {l : Str}
    (hh : ∀ b ∈ l.head?, isWs b = false)
    (hl : ∀ b ∈ l.getLast?, isWs b = false) : trimWs l = l := by
  unfold trimWs
  rw [dropWhile_eq_self_of_head isWs hh]
  have hrev : ∀ b ∈ l.reverse.head?, isWs b = false := by
    intro b hb
    exact hl b (by rwa [← List.getLast?_reverse, List.reverse_reverse] at hb)
  rw [dropWhile_eq_self_of_head isWs hrev, List.reverse_reverse]

theorem normWs_idem (l : Str) : normWs (normWs l) = normWs l := by
  unfold normWs
  have hrun : noWsRun (trimWs (collapseWs l)) = true :=
    noWsRun_trimWs (noWsRun_collapseWs l)
  rw [collapseWs_eq_self hrun]
  exact trimWs_eq_self (head_trimWs_not_ws _) (getLast_trimWs_not_ws _)

/-! ## Claim C4: title truncation -/

theorem buildTitle_of_firstLine {raw sid fl : Str}
    (hfind : ((splitLines raw).map trimWs).find? (fun line => decide (0 < line.length))
      = some fl) :
    buildTitle raw sid =
      (if (normWs (stripTags fl)).length = 0 then "Session ".data ++ sid.take 8
       else if (normWs (stripTags fl)).length ≤ 80 then normWs (stripTags fl)
       else (normWs (stripTags fl)).take 77 ++ "...".data) := by
  unfold buildTitle
  rw [hfind]

/-- C4 (amended): for every input whose sanitized form (first non-blank
line, `<...>` tags stripped, whitespace collapsed and trimmed) is non-empty,
`buildTitle` returns exactly the 77-character truncation plus `"..."`
(length exactly 80, ending in `"..."`) when the sanitized length is at
least 81, and the sanitized text unchanged when its length is between 1
and 80.  (The un-amended claim fails when the sanitized form is empty:
`buildTitle` then falls back to `"Session "` plus the session-id prefix.) -/
theorem C4_buildTitle_truncation (raw sessionId s : Str)
    (hs : sanitizedForm raw = some s) (hne : s ≠ []) :
    (81 ≤ s.length →
      buildTitle raw sessionId = s.take 77 ++ "...".data ∧
      (buildTitle raw sessionId).length = 80 ∧
      "...".data <:+ buildTitle raw sessionId) ∧
    (s.length ≤ 80 → buildTitle raw sessionId = s) := by
  unfold sanitizedForm at hs
  rw [Option.map_eq_some'] at hs
  obtain ⟨fl, hfind, hsan⟩ := hs
  have hbt := @buildTitle_of_firstLine _ sessionId _ hfind
  rw [hsan] at hbt
  have h0 : ¬s.length = 0 := by
    simpa [List.length_eq_zero] using hne
  constructor
  · intro h81
    have h80 : ¬s.length ≤ 80 := by omega
    rw [hbt, if_neg h0, if_neg h80]
    refine ⟨rfl, ?_, List.suffix_append _ _⟩
    have h77 : 77 ≤ s.length := by omega
    simp [List.length_take, Nat.min_eq_left h77]
  · intro h80
    rw [hbt, if_neg h0, if_pos h80]

/-- Witness for C4 at a concrete input of sanitized length 81. -/
theorem C4_buildTitle_truncation_witness :
    sanitizedForm (List.replicate 81 'a') = some (List.replicate 81 'a') ∧
    List.replicate 81 'a' ≠ ([] : Str) ∧
    buildTitle (List.replicate 81 'a') "abc".data
      = (List.replicate 81 'a').take 77 ++ "...".data ∧
    (buildTitle (List.replicate 81 'a') "abc".data).length = 80 := by
  refine ⟨by decide, by decide, ?_, ?_⟩
  · exact ((C4_buildTitle_truncation (List.replicate 81 'a') "abc".data
      (List.replicate 81 'a') (by decide) (by decide)).1 (by decide)).1
  · exact ((C4_buildTitle_truncation (List.replicate 81 'a') "abc".data
      (List.replicate 81 'a') (by decide) (by decide)).1 (by decide)).2.1

/-- C4 counterexample: the input `"<x>"` has sanitized form `""` (length 0,
hence at most 80), but `buildTitle` does not return the sanitized text
unchanged — it falls back to `"Session "` plus the session-id prefix. -/
theorem C4_buildTitle_truncation_counterexample :
    sanitizedForm "<x>".data = some [] ∧ (([] : Str)).length ≤ 80 ∧
    buildTitle "<x>".data "abcdefgh".data ≠ ([] : Str) := by
  decide

/-! ## Claim C2: path containment -/

theorem splitSep_ne_nil (l : Str) : splitSep l ≠ [] := by
  cases l with
  | nil => simp [splitSep]
  | cons c rest =>
    by_cases hc : c = '/'
    · simp [splitSep, hc]
    · simp only [splitSep, hc, if_false]
      cases h : splitSep rest <;> simp

theorem splitSep_cons_ne (c : Char) (X : Str) (hc : ¬c = '/') :
    splitSep (c :: X)
      = match splitSep X with
        | [] => [[c]]
        | g :: gs => (c :: g) :: gs := by
  simp only [splitSep, hc, if_false]

theorem splitSep_append (a b : Str) :
    splitSep (a ++ '/' :: b) = splitSep a ++ splitSep b := by
  induction a with
  | nil => simp [splitSep]
  | cons c a' ih =>
    by_cases hc : c = '/'
    · simp [splitSep, hc, ih]
    · cases h : splitSep a' with
      | nil => exact absurd h (splitSep_ne_nil a')
      | cons g gs =>
        rw [List.cons_append, splitSep_cons_ne c _ hc, splitSep_cons_ne c _ hc, ih, h]
        rfl

theorem foldl_resolveStep_no_dotdot (gs : List Str) (stk : List Str)
    (h : ∀ g ∈ gs, g ≠ ['.', '.']) :
    gs.foldl resolveStep stk
      = stk ++ gs.filter (fun g => !(decide (g = [] ∨ g = ['.']))) := by
  induction gs generalizing stk with
  | nil => simp
  | cons g gs ih =>
    have hg : g ≠ ['.', '.'] := h g (by simp)
    have hrest : ∀ x ∈ gs, x ≠ ['.', '.'] := fun x hx => h x (by simp [hx])
    by_cases hskip : g = [] ∨ g = ['.']
    · have hstep : resolveStep stk g = stk := by
        simp [resolveStep, hskip]
      simp only [List.foldl_cons, hstep, List.filter_cons, hskip]
      simpa using ih stk hrest
    · have hstep : resolveStep stk g = stk ++ [g] := by
        simp [resolveStep, hskip, hg]
      simp only [List.foldl_cons, hstep, List.filter_cons]
      rw [ih (stk ++ [g]) hrest]
      simp [hskip]

theorem joinSlash_cons_cons (a b : Str) (t : List Str) :
    joinSlash (a :: b :: t) = a ++ '/' :: joinSlash (b :: t) := by
  simp [joinSlash]

theorem joinSlash_append (A E : List Str) (hA : A ≠ []) (hE : E ≠ []) :
    joinSlash (A ++ E) = joinSlash A ++ '/' :: joinSlash E := by
  induction A with
  | nil => exact absurd rfl hA
  | cons a A' ih =>
    cases A' with
    | nil =>
      cases E with
      | nil => exact absurd rfl hE
      | cons e es => simp [joinSlash]
    | cons b A'' =>
      have hih := ih (by simp)
      rw [List.cons_append] at hih
      show joinSlash (a :: ((b :: A'') ++ E)) = joinSlash (a :: b :: A'') ++ '/' :: joinSlash E
      rw [List.cons_append, joinSlash_cons_cons, hih, joinSlash_cons_cons]
      simp

theorem normalizeFsPath_explicit (cwd p : Str) :
    normalizeFsPath cwd p
      = '/' :: joinSlash (List.foldl resolveStep []
          (splitSep (if p.head? = some '/' then p else cwd ++ '/' :: p))) := rfl

/-- C2 (amended): (1) for every cwd and every string `root`,
`isPathWithin(root, root)` is true; (2) for every `root` that is non-empty
and does not resolve to the filesystem root `"/"`, and every suffix `s`
containing no `".."` segments, `isPathWithin(root + "/" + s, root)` is true;
(3) a candidate sharing a textual prefix with the root without a
separator boundary (`/tmp/repo-extra` vs `/tmp/repo`) is not within it.
(The un-amended universally quantified clause (2) fails because Node's
`path.resolve` collapses `".."` segments: the counterexample takes
`s = ".."`, which escapes the root.) -/
theorem C2_isPathWithin
    : (∀ cwd root : Str, isPathWithin cwd root root = true) ∧
      (∀ cwd root s : Str, root ≠ [] → normalizeFsPath cwd root ≠ ['/'] →
        (∀ seg ∈ splitSep s, seg ≠ ['.', '.']) →
        isPathWithin cwd (root ++ '/' :: s) root = true) ∧
      (∀ cwd : Str, isPathWithin cwd "/tmp/repo-extra".data "/tmp/repo".data = false) := by
  refine ⟨?_, ?_, ?_⟩
  · intro cwd root
    show (normalizeFsPath cwd root == normalizeFsPath cwd root
      || (normalizeFsPath cwd root ++ ['/']).isPrefixOf (normalizeFsPath cwd root)) = true
    simp
  · intro cwd root s hroot hnr hnodot
    obtain ⟨c0, rt, rfl⟩ : ∃ c0 rt, root = c0 :: rt := by
      cases root with
      | nil => exact absurd rfl hroot
      | cons c0 rt => exact ⟨c0, rt, rfl⟩
    have hfullc :
        (if ((c0 :: rt) ++ '/' :: s).head? = some '/' then (c0 :: rt) ++ '/' :: s
         else cwd ++ '/' :: ((c0 :: rt) ++ '/' :: s))
        = (if (c0 :: rt).head? = some '/' then c0 :: rt else cwd ++ '/' :: c0 :: rt)
          ++ '/' :: s := by
      by_cases h0 : c0 = '/'
      · simp [h0]
      · simp [h0, List.cons_append]
    show (normalizeFsPath cwd ((c0 :: rt) ++ '/' :: s) == normalizeFsPath cwd (c0 :: rt)
      || (normalizeFsPath cwd (c0 :: rt) ++ ['/']).isPrefixOf
           (normalizeFsPath cwd ((c0 :: rt) ++ '/' :: s))) = true
    rw [normalizeFsPath_explicit cwd ((c0 :: rt) ++ '/' :: s),
      normalizeFsPath_explicit cwd (c0 :: rt), hfullc, splitSep_append,
      List.foldl_append, foldl_resolveStep_no_dotdot _ _ hnodot]
    cases hk : (splitSep s).filter (fun g => !(decide (g = [] ∨ g = ['.']))) with
    | nil => simp
    | cons k ks =>
      have hstk :
          List.foldl resolveStep []
            (splitSep (if (c0 :: rt).head? = some '/' then c0 :: rt
              else cwd ++ '/' :: c0 :: rt)) ≠ [] := by
        intro hempty
        apply hnr
        rw [normalizeFsPath_explicit, hempty]
        rfl
      rw [joinSlash_append _ _ hstk (by simp)]
      rw [Bool.or_eq_true]
      right
      rw [List.isPrefixOf_iff_prefix]
      exact ⟨joinSlash (k :: ks), by simp⟩
  · intro cwd
    have habs : ∀ p : Str, p.head? = some '/' →
        normalizeFsPath cwd p = normalizeFsPath [] p := by
      intro p hp
      rw [normalizeFsPath_explicit, normalizeFsPath_explicit, if_pos hp, if_pos hp]
    show (normalizeFsPath cwd "/tmp/repo-extra".data == normalizeFsPath cwd "/tmp/repo".data
      || (normalizeFsPath cwd "/tmp/repo".data ++ ['/']).isPrefixOf
           (normalizeFsPath cwd "/tmp/repo-extra".data)) = false
    rw [habs "/tmp/repo-extra".data (by decide), habs "/tmp/repo".data (by decide)]
    decide

/-- Witness for C2 at concrete inputs. -/
theorem C2_isPathWithin_witness :
    isPathWithin "/cwd".data "/tmp/repo".data "/tmp/repo".data = true ∧
    isPathWithin "/cwd".data ("/tmp/repo".data ++ '/' :: "sub".data) "/tmp/repo".data = true := by
  exact ⟨C2_isPathWithin.1 "/cwd".data "/tmp/repo".data,
    C2_isPathWithin.2.1 "/cwd".data "/tmp/repo".data "sub".data
      (by decide) (by decide) (by decide)⟩

/-- C2 counterexample: the suffix `".."` does not start with the path
separator, yet `isPathWithin(root + "/" + "..", root)` is false for root
`/a`, because `path.resolve` collapses the `".."` segment. -/
theorem C2_isPathWithin_counterexample :
    "..".data.head? ≠ some '/' ∧
    isPathWithin "/cwd".data ("/a".data ++ '/' :: "..".data) "/a".data = false := by
  decide

/-! ## Claim C1: searchable-content cap -/

theorem sumLens_append_single (xs : List Str) (t : Str) :
    sumLens (xs ++ [t]) = sumLens xs + t.length := by
  simp [sumLens]

theorem sumLens_dropLast_le (ps : List Str) : sumLens ps.dropLast ≤ sumLens ps := by
  induction ps with
  | nil => simp [sumLens]
  | cons p ps ih =>
    cases ps with
    | nil => simp [sumLens]
    | cons q qs =>
      have : sumLens ((p :: q :: qs).dropLast) = p.length + sumLens ((q :: qs).dropLast) := by
        simp [sumLens]
      rw [this]
      have h2 : sumLens (p :: q :: qs) = p.length + sumLens (q :: qs) := by
        simp [sumLens]
      rw [h2]
      exact Nat.add_le_add_left ih _

theorem contentAux_cons_cases (l : Line) (rest : List Line) (parts : List Str)
    (total : Nat) :
    contentAux (l :: rest) parts total = contentAux rest parts total ∨
    (∃ text, contentAux (l :: rest) parts total
        = contentAux rest (parts ++ [text]) (total + text.length) ∧
      total + text.length < CONTENT_CAP_CHARS) ∨
    (∃ text, contentAux (l :: rest) parts total = (parts ++ [text], true)) := by
  cases l with
  | bad => exact Or.inl rfl
  | record r =>
    simp only [contentAux]
    split_ifs with h1 h2 h3 h4 h5 h6 h7
    · exact Or.inl rfl
    · exact Or.inl rfl
    · exact Or.inr (Or.inr ⟨recText r, rfl⟩)
    · exact Or.inr (Or.inl ⟨recText r, rfl, Nat.not_le.mp h4⟩)
    · exact Or.inl rfl
    · exact Or.inr (Or.inr ⟨recText r, rfl⟩)
    · exact Or.inr (Or.inl ⟨recText r, rfl, Nat.not_le.mp h7⟩)
    · exact Or.inl rfl

theorem contentAux_dropLast_lt (lines : List Line) :
    ∀ parts total, sumLens parts ≤ total → total < CONTENT_CAP_CHARS →
      sumLens ((contentAux lines parts total).1.dropLast) < CONTENT_CAP_CHARS := by
  induction lines with
  | nil =>
    intro parts total h1 h2
    exact Nat.lt_of_le_of_lt (Nat.le_trans (sumLens_dropLast_le parts) h1) h2
  | cons l rest ih =>
    intro parts total h1 h2
    rcases contentAux_cons_cases l rest parts total with h | ⟨text, heq, hlt⟩ | ⟨text, heq⟩
    · rw [h]
      exact ih parts total h1 h2
    · rw [heq]
      refine ih (parts ++ [text]) (total + text.length) ?_ hlt
      rw [sumLens_append_single]
      exact Nat.add_le_add_right h1 _
    · rw [heq]
      simp only [List.dropLast_concat]
      exact Nat.lt_of_le_of_lt h1 h2

/-- C1 (amended): `parseSessionContent` returns the collected user/assistant
chunks joined with newline separators, and the cumulative length of all
collected chunks except the last is strictly below 200×1024 — the extractor
stops reading once the cumulative length reaches the cap, but the final
chunk is pushed whole, so the output itself is not truncated to 200×1024
characters and can exceed the cap by up to the final chunk's length (plus
separators).  (The un-amended claim bounded the output length by 200×1024;
the counterexample shows a single oversized assistant chunk exceeding
it.) -/
theorem C1_parseSessionContent_cap (lines : List Line) :
    parseSessionContent lines = joinSep (sessionContentParts lines).1 ∧
    sumLens (sessionContentParts lines).1.dropLast < CONTENT_CAP_CHARS := by
  refine ⟨rfl, ?_⟩
  unfold sessionContentParts
  exact contentAux_dropLast_lt lines [] 0 (by simp [sumLens]) (by norm_num [CONTENT_CAP_CHARS])

theorem trimWs_eq_self_of_all {l : Str} (h : ∀ c ∈ l, isWs c = false) :
    trimWs l = l :=
  trimWs_eq_self (fun b hb => h b (List.mem_of_mem_head? hb))
    (fun b hb => h b (List.mem_of_mem_getLast? hb))

theorem contentAux_single_asst_over (t : Str) (ht0 : ¬(trimWs t).length = 0)
    (hcap : CONTENT_CAP_CHARS ≤ t.length) :
    contentAux [mkAsstLine t] [] 0 = ([t], true) := by
  simp only [mkAsstLine, contentAux]
  split_ifs with h1 h2 h3 h4 h5 h6 h7 <;>
    first
      | rfl
      | exact absurd h1.1 (by decide)
      | exact absurd h6 ht0
      | exact absurd (show CONTENT_CAP_CHARS ≤ 0 + t.length by omega) h7
      | exact absurd ⟨trivial, rfl⟩ h5

/-- C1 counterexample: a transcript whose single assistant record carries
200×1024 + 1 characters of text makes `parseSessionContent` return a string
of length 200×1024 + 1, exceeding the claimed 200×1024 bound (the final
chunk is pushed whole before the cap check, and the output is never
truncated). -/
theorem C1_parseSessionContent_cap_counterexample :
    ¬((parseSessionContent [mkAsstLine (List.replicate (200 * 1024 + 1) 'a')]).length
      ≤ 200 * 1024) := by
  have hbig : ∀ c ∈ List.replicate (200 * 1024 + 1) 'a', isWs c = false := by
    intro c hc
    rw [List.eq_of_mem_replicate hc]
    decide
  have htrim : ¬(trimWs (List.replicate (200 * 1024 + 1) 'a')).length = 0 := by
    rw [trimWs_eq_self_of_all hbig, List.length_replicate]
    norm_num
  have hcap : CONTENT_CAP_CHARS ≤ (List.replicate (200 * 1024 + 1) 'a').length := by
    rw [List.length_replicate]
    norm_num [CONTENT_CAP_CHARS]
  have hout : parseSessionContent [mkAsstLine (List.replicate (200 * 1024 + 1) 'a')]
      = List.replicate (200 * 1024 + 1) 'a' := by
    unfold parseSessionContent sessionContentParts
    rw [contentAux_single_asst_over _ htrim hcap]
    rfl
  rw [hout, List.length_replicate]
  norm_num

/-! ## Lemmas: session parser fold -/

theorem oor_assoc {A : Type} (a b c : Option A) : oor (oor a b) c = oor a (oor b c) := by
  cases a <;> rfl

theorem oor_none_right {A : Type} (a : Option A) : oor a none = a := by
  cases a <;> rfl

theorem oor_eq_or {A : Type} (a b : Option A) : oor a b = a.or b := by
  cases a <;> rfl

theorem sidStep_sessionId (st : SessState) (r : TRecord) :
    (sidStep st r).sessionId = oor st.sessionId (recSessionId r) := by
  cases hs : st.sessionId with
  | some v => simp [sidStep, hs, oor]
  | none =>
    cases hr : r.sessionId with
    | none => simp [sidStep, hs, hr, recSessionId, oor]
    | some s =>
      simp only [sidStep, hs, hr, recSessionId, oor]
      split_ifs <;> simp [hs]

theorem sidStep_cwd (st : SessState) (r : TRecord) :
    (sidStep st r).cwd = st.cwd := by
  cases hs : st.sessionId with
  | some v => simp [sidStep, hs]
  | none =>
    cases hr : r.sessionId with
    | none => simp [sidStep, hs, hr]
    | some s =>
      simp only [sidStep, hs, hr]
      split_ifs <;> simp

theorem sidStep_latest (st : SessState) (r : TRecord) :
    (sidStep st r).latestExplicitTitle = st.latestExplicitTitle := by
  cases hs : st.sessionId with
  | some v => simp [sidStep, hs]
  | none =>
    cases hr : r.sessionId with
    | none => simp [sidStep, hs, hr]
    | some s =>
      simp only [sidStep, hs, hr]
      split_ifs <;> simp

theorem cwdStep_cwd (st : SessState) (r : TRecord) :
    (cwdStep st r).cwd = oor st.cwd (recCwd r) := by
  cases hs : st.cwd with
  | some v => simp [cwdStep, hs, oor]
  | none =>
    cases hr : r.cwd with
    | none => simp [cwdStep, hs, hr, recCwd, oor]
    | some s =>
      simp only [cwdStep, hs, hr, recCwd, oor]
      split_ifs <;> simp [hs]

theorem cwdStep_sessionId (st : SessState) (r : TRecord) :
    (cwdStep st r).sessionId = st.sessionId := by
  cases hs : st.cwd with
  | some v => simp [cwdStep, hs]
  | none =>
    cases hr : r.cwd with
    | none => simp [cwdStep, hs, hr]
    | some s =>
      simp only [cwdStep, hs, hr]
      split_ifs <;> simp

theorem cwdStep_latest (st : SessState) (r : TRecord) :
    (cwdStep st r).latestExplicitTitle = st.latestExplicitTitle := by
  cases hs : st.cwd with
  | some v => simp [cwdStep, hs]
  | none =>
    cases hr : r.cwd with
    | none => simp [cwdStep, hs, hr]
    | some s =>
      simp only [cwdStep, hs, hr]
      split_ifs <;> simp

theorem titleRecordStep_sessionId (st : SessState) (r : TRecord) :
    (titleRecordStep st r).sessionId = st.sessionId := by
  unfold titleRecordStep
  repeat' split
  all_goals rfl

theorem titleRecordStep_cwd (st : SessState) (r : TRecord) :
    (titleRecordStep st r).cwd = st.cwd := by
  unfold titleRecordStep
  repeat' split
  all_goals rfl

theorem titleRecordStep_latest (st : SessState) (r : TRecord) :
    (titleRecordStep st r).latestExplicitTitle
      = oor (recTitleSignal r) st.latestExplicitTitle := by
  unfold titleRecordStep recTitleSignal
  by_cases hct : r.type = some "custom-title".data
  · by_cases hag : r.type = some "agent-name".data
    · rw [hct] at hag
      exact absurd hag (by decide)
    · simp only [hct, if_true, hag, if_false]
      cases toNonEmptySingleLine r.customTitle <;> rfl
  · by_cases hag : r.type = some "agent-name".data
    · simp only [hct, if_false, hag, if_true]
      cases toNonEmptySingleLine r.agentName <;> rfl
    · simp only [hct, hag, if_false]
      rfl

theorem firstUserUpd_sessionId (st : SessState) (text : Str) :
    (firstUserUpd st text).sessionId = st.sessionId := by
  unfold firstUserUpd
  split <;> rfl

theorem firstUserUpd_cwd (st : SessState) (text : Str) :
    (firstUserUpd st text).cwd = st.cwd := by
  unfold firstUserUpd
  split <;> rfl

theorem firstUserUpd_latest (st : SessState) (text : Str) :
    (firstUserUpd st text).latestExplicitTitle = st.latestExplicitTitle := by
  unfold firstUserUpd
  split <;> rfl

theorem firstPromptUpd_sessionId (st : SessState) (text : Str) :
    (firstPromptUpd st text).sessionId = st.sessionId := by
  unfold firstPromptUpd
  split <;> rfl

theorem firstPromptUpd_cwd (st : SessState) (text : Str) :
    (firstPromptUpd st text).cwd = st.cwd := by
  unfold firstPromptUpd
  split <;> rfl

theorem firstPromptUpd_latest (st : SessState) (text : Str) :
    (firstPromptUpd st text).latestExplicitTitle = st.latestExplicitTitle := by
  unfold firstPromptUpd
  split <;> rfl

theorem renameArgsUpd_sessionId (st : SessState) (text : Str) :
    (renameArgsUpd st text).sessionId = st.sessionId := by
  unfold renameArgsUpd
  split <;> rfl

theorem renameArgsUpd_cwd (st : SessState) (text : Str) :
    (renameArgsUpd st text).cwd = st.cwd := by
  unfold renameArgsUpd
  split <;> rfl

theorem renameArgsUpd_latest (st : SessState) (text : Str) :
    (renameArgsUpd st text).latestExplicitTitle
      = oor (parseRenameCommandArgs text) st.latestExplicitTitle := by
  unfold renameArgsUpd
  cases parseRenameCommandArgs text <;> rfl

theorem renameStdoutUpd_sessionId (st : SessState) (text : Str) :
    (renameStdoutUpd st text).sessionId = st.sessionId := by
  unfold renameStdoutUpd
  split <;> rfl

theorem renameStdoutUpd_cwd (st : SessState) (text : Str) :
    (renameStdoutUpd st text).cwd = st.cwd := by
  unfold renameStdoutUpd
  split <;> rfl

theorem renameStdoutUpd_latest (st : SessState) (text : Str) :
    (renameStdoutUpd st text).latestExplicitTitle
      = oor (parseRenameStdoutTitle text) st.latestExplicitTitle := by
  unfold renameStdoutUpd
  cases parseRenameStdoutTitle text <;> rfl

theorem userStep_sessionId (st : SessState) (r : TRecord) :
    (userStep st r).sessionId = st.sessionId := by
  unfold userStep
  split_ifs <;>
    simp [renameStdoutUpd_sessionId, renameArgsUpd_sessionId,
      firstPromptUpd_sessionId, firstUserUpd_sessionId]

theorem userStep_cwd (st : SessState) (r : TRecord) :
    (userStep st r).cwd = st.cwd := by
  unfold userStep
  split_ifs <;>
    simp [renameStdoutUpd_cwd, renameArgsUpd_cwd, firstPromptUpd_cwd, firstUserUpd_cwd]

theorem userStep_latest (st : SessState) (r : TRecord) :
    (userStep st r).latestExplicitTitle
      = oor (userSignal r) st.latestExplicitTitle := by
  unfold userStep userSignal
  split_ifs with h1 h2
  · rw [renameStdoutUpd_latest, renameArgsUpd_latest, firstPromptUpd_latest,
      firstUserUpd_latest, ← oor_assoc]
  · rfl
  · rfl

theorem sessStep_sessionId (st : SessState) (l : Line) :
    (sessStep st l).sessionId = oor st.sessionId (lineSessionId l) := by
  cases l with
  | bad => simp [sessStep, lineSessionId, oor_none_right]
  | record r =>
    simp [sessStep, lineSessionId, userStep_sessionId, titleRecordStep_sessionId,
      cwdStep_sessionId, sidStep_sessionId]

theorem sessStep_cwd (st : SessState) (l : Line) :
    (sessStep st l).cwd = oor st.cwd (lineCwd l) := by
  cases l with
  | bad => simp [sessStep, lineCwd, oor_none_right]
  | record r =>
    simp [sessStep, lineCwd, userStep_cwd, titleRecordStep_cwd, cwdStep_cwd, sidStep_cwd]

theorem sessStep_latest (st : SessState) (l : Line) :
    (sessStep st l).latestExplicitTitle
      = oor (lineSignal l) st.latestExplicitTitle := by
  cases l with
  | bad => simp [sessStep, lineSignal, oor]
  | record r =>
    simp only [sessStep, lineSignal]
    rw [userStep_latest, titleRecordStep_latest, cwdStep_latest, sidStep_latest,
      ← oor_assoc]

theorem firstSessionId_cons (l : Line) (ls : List Line) :
    firstSessionId (l :: ls) = oor (lineSessionId l) (firstSessionId ls) := by
  unfold firstSessionId
  rw [List.findSome?_cons]
  cases lineSessionId l <;> rfl

theorem firstCwd_cons (l : Line) (ls : List Line) :
    firstCwd (l :: ls) = oor (lineCwd l) (firstCwd ls) := by
  unfold firstCwd
  rw [List.findSome?_cons]
  cases lineCwd l <;> rfl

theorem lastExplicitSignal_cons (l : Line) (ls : List Line) :
    lastExplicitSignal (l :: ls) = oor (lastExplicitSignal ls) (lineSignal l) := by
  unfold lastExplicitSignal
  rw [List.reverse_cons, List.findSome?_append, ← oor_eq_or]
  have h1 : List.findSome? lineSignal [l] = lineSignal l := by
    rw [List.findSome?_cons]
    cases lineSignal l <;> rfl
  rw [h1]

theorem foldl_sessStep_sessionId (lines : List Line) (st : SessState) :
    (lines.foldl sessStep st).sessionId = oor st.sessionId (firstSessionId lines) := by
  induction lines generalizing st with
  | nil => simp [firstSessionId, oor_none_right]
  | cons l ls ih =>
    rw [List.foldl_cons, ih, sessStep_sessionId, oor_assoc, firstSessionId_cons]

theorem foldl_sessStep_cwd (lines : List Line) (st : SessState) :
    (lines.foldl sessStep st).cwd = oor st.cwd (firstCwd lines) := by
  induction lines generalizing st with
  | nil => simp [firstCwd, oor_none_right]
  | cons l ls ih =>
    rw [List.foldl_cons, ih, sessStep_cwd, oor_assoc, firstCwd_cons]

theorem foldl_sessStep_latest (lines : List Line) (st : SessState) :
    (lines.foldl sessStep st).latestExplicitTitle
      = oor (lastExplicitSignal lines) st.latestExplicitTitle := by
  induction lines generalizing st with
  | nil => simp [lastExplicitSignal, oor]
  | cons l ls ih =>
    rw [List.foldl_cons, ih, sessStep_latest, ← oor_assoc, lastExplicitSignal_cons]

theorem toNonEmptySingleLine_idem {x y : Str}
    (h : toNonEmptySingleLine (some x) = some y) :
    toNonEmptySingleLine (some y) = some y := by
  replace h : (if 0 < (normWs x).length then some (normWs x) else none) = some y := h
  split at h
  next hc =>
    simp only [Option.some.injEq] at h
    subst h
    show (if 0 < (normWs (normWs x)).length then some (normWs (normWs x)) else none)
      = some (normWs x)
    rw [normWs_idem, if_pos hc]
  next hc => exact absurd h (by simp)

theorem toNonEmptySingleLine_norm {o : Option Str} {t : Str}
    (h : toNonEmptySingleLine o = some t) :
    toNonEmptySingleLine (some t) = some t := by
  cases o with
  | none => simp [toNonEmptySingleLine] at h
  | some x => exact toNonEmptySingleLine_idem h

theorem parseRenameCommandArgs_norm {raw t : Str}
    (h : parseRenameCommandArgs raw = some t) :
    toNonEmptySingleLine (some t) = some t := by
  unfold parseRenameCommandArgs at h
  repeat' split at h
  all_goals first
    | exact toNonEmptySingleLine_norm h
    | simp at h

theorem parseRenameStdoutTitle_norm {raw t : Str}
    (h : parseRenameStdoutTitle raw = some t) :
    toNonEmptySingleLine (some t) = some t := by
  unfold parseRenameStdoutTitle at h
  repeat' split at h
  all_goals first
    | exact toNonEmptySingleLine_norm h
    | simp at h

theorem lineSignal_norm {l : Line} {t : Str} (h : lineSignal l = some t) :
    toNonEmptySingleLine (some t) = some t := by
  cases l with
  | bad => simp [lineSignal] at h
  | record r =>
    simp only [lineSignal] at h
    cases hu : userSignal r with
    | some u =>
      rw [hu] at h
      simp only [oor, Option.some.injEq] at h
      subst h
      unfold userSignal at hu
      repeat' split at hu
      · cases hso : parseRenameStdoutTitle (recText r) with
        | some s =>
          rw [hso] at hu
          simp only [oor, Option.some.injEq] at hu
          subst hu
          exact parseRenameStdoutTitle_norm hso
        | none =>
          rw [hso] at hu
          exact parseRenameCommandArgs_norm hu
      all_goals simp at hu
    | none =>
      rw [hu] at h
      replace h : recTitleSignal r = some t := h
      unfold recTitleSignal at h
      repeat' split at h
      all_goals first
        | exact toNonEmptySingleLine_norm h
        | simp at h

/-! ## Claims C8 and C3: session parser -/

/-- C8: `parseTranscriptFile` yields a session exactly when some line
supplies a non-blank string `sessionId` and some line supplies a non-blank
string `cwd`; when it does, the session's `sessionId` and `cwd` are the
first such occurrences in file order; and `titleSourceRaw` may be the empty
string when no title-quality text exists. -/
theorem C8_parseTranscriptFile_requires_identity :
    (∀ lines : List Line,
      match parseTranscriptFile lines with
      | some ps => firstSessionId lines = some ps.sessionId ∧ firstCwd lines = some ps.cwd
      | none => firstSessionId lines = none ∨ firstCwd lines = none) ∧
    (∃ (lines : List Line) (ps : ParsedSession),
      parseTranscriptFile lines = some ps ∧ ps.titleSourceRaw = []) := by
  constructor
  · intro lines
    have hsid : (List.foldl sessStep {} lines).sessionId = firstSessionId lines := by
      rw [foldl_sessStep_sessionId]
      rfl
    have hcwd : (List.foldl sessStep {} lines).cwd = firstCwd lines := by
      rw [foldl_sessStep_cwd]
      rfl
    simp only [parseTranscriptFile]
    rw [hsid, hcwd]
    cases h1 : firstSessionId lines <;> cases h2 : firstCwd lines <;> simp
  · refine ⟨[Line.record { sessionId := some "s".data, cwd := some "/w".data }],
      { sessionId := "s".data, cwd := "/w".data, titleSourceRaw := [] }, ?_, rfl⟩
    decide

/-- C3: whenever a transcript parses to a session and contains at least one
qualifying explicit-title signal (non-blank `custom-title`, non-blank
`agent-name`, a `/rename` command's args, or a rename-confirmation stdout),
the session's `titleSourceRaw` is exactly the normalized text of the LAST
such signal in file order — later signals override earlier ones, and any
explicit signal takes priority over the first displayable prompt and the
first user text. -/
theorem C3_last_explicit_signal_wins (lines : List Line) (ps : ParsedSession) (t : Str)
    (hparse : parseTranscriptFile lines = some ps)
    (hsig : lastExplicitSignal lines = some t) :
    ps.titleSourceRaw = t := by
  have hlatest : (List.foldl sessStep {} lines).latestExplicitTitle = some t := by
    rw [foldl_sessStep_latest, hsig]
    rfl
  have hnorm : toNonEmptySingleLine (some t) = some t := by
    have : ∃ l ∈ lines.reverse, lineSignal l = some t := by
      have := hsig
      unfold lastExplicitSignal at this
      exact List.exists_of_findSome?_eq_some this
    obtain ⟨l, -, hl⟩ := this
    exact lineSignal_norm hl
  simp only [parseTranscriptFile] at hparse
  cases h1 : (List.foldl sessStep {} lines).sessionId with
  | none => rw [h1] at hparse; simp at hparse
  | some sid =>
    cases h2 : (List.foldl sessStep {} lines).cwd with
    | none => rw [h1, h2] at hparse; simp at hparse
    | some c =>
      rw [h1, h2] at hparse
      simp only [Option.some.injEq] at hparse
      subst hparse
      show (chooseSessionTitleRaw
        { latestExplicitTitle := (List.foldl sessStep {} lines).latestExplicitTitle
          firstPromptRaw := (List.foldl sessStep {} lines).firstPromptRaw
          firstUserRaw := (List.foldl sessStep {} lines).firstUserRaw }).getD [] = t
      rw [hlatest]
      unfold chooseSessionTitleRaw
      simp only [hnorm]
      rfl

/-- Witness for C3: a transcript whose `/rename` command follows the first
prompt resolves its title source to the rename's argument. -/
theorem C3_last_explicit_signal_wins_witness :
    parseTranscriptFile
        [mkSysLine "s1" "/ws",
         mkUserLine "Hello there".data,
         mkUserLine "<command-name>/rename</command-name><command-args>New Title</command-args>".data]
      = some { sessionId := "s1".data, cwd := "/ws".data,
               titleSourceRaw := "New Title".data } ∧
    lastExplicitSignal
        [mkSysLine "s1" "/ws",
         mkUserLine "Hello there".data,
         mkUserLine "<command-name>/rename</command-name><command-args>New Title</command-args>".data]
      = some "New Title".data ∧
    ({ sessionId := "s1".data, cwd := "/ws".data,
       titleSourceRaw := "New Title".data } : ParsedSession).titleSourceRaw
      = "New Title".data := by
  refine ⟨by decide, by decide, ?_⟩
  exact C3_last_explicit_signal_wins
    [mkSysLine "s1" "/ws",
     mkUserLine "Hello there".data,
     mkUserLine "<command-name>/rename</command-name><command-args>New Title</command-args>".data]
    { sessionId := "s1".data, cwd := "/ws".data, titleSourceRaw := "New Title".data }
    "New Title".data (by decide) (by decide)

/-! ## Lemmas: prompt parser and the response cap -/

theorem respCombine_length (existing t : Str) :
    (respCombine existing t).length = addLen existing.length t.length := by
  unfold respCombine addLen
  by_cases h2 : existing.length = 0
  · rw [if_neg (by omega), if_pos h2]
  · rw [if_pos h2, if_neg h2]
    simp [List.length_append]
    omega

theorem respNew_length (existing t : Str) :
    (respNew existing t).length = min (addLen existing.length t.length) MAX_RESPONSE_LENGTH := by
  unfold respNew
  by_cases h3 : (respCombine existing t).length > MAX_RESPONSE_LENGTH
  · rw [if_pos h3, List.length_take]
    rw [respCombine_length] at h3 ⊢
    omega
  · rw [if_neg h3]
    rw [respCombine_length] at h3 ⊢
    omega

theorem promptsStep_mkAsst_reduce (dp : Str → Option Int) (fb : Str)
    (prompts : List SessionPrompt) (idx : Nat) (t : Str) :
    promptsStep dp fb (prompts, idx) (mkAsstLine t)
      = (match prompts.getLast? with
         | some prev =>
           if (trimWs t).length ≠ 0 then
             if (prev.responseRaw.getD []).length < MAX_RESPONSE_LENGTH then
               (prompts.dropLast ++
                 [{ prev with responseRaw := some (respNew (prev.responseRaw.getD []) t) }],
                idx)
             else (prompts, idx)
           else (prompts, idx)
         | none => (prompts, idx)) := rfl

theorem promptsStep_mkUser_reduce (dp : Str → Option Int) (fb : Str)
    (prompts : List SessionPrompt) (idx : Nat) (u : Str) :
    promptsStep dp fb (prompts, idx) (mkUserLine u)
      = (if (trimWs u).length = 0 then (prompts, idx)
         else if !(isDisplayableUserPrompt u) then (prompts, idx)
         else (prompts ++
            [{ promptId := fb ++ ':' :: (Nat.repr idx).data
               sessionId := fb
               promptRaw := u
               promptTitle := buildTitle u fb
               responseRaw := none
               timestampIso := none
               timestampMs := none }], idx + 1)) := rfl

theorem promptsStep_asst_single (dp : Str → Option Int) (fb : Str)
    (p : SessionPrompt) (idx : Nat) (t : Str) (ht : (trimWs t).length ≠ 0) :
    ∃ resp : Option Str,
      promptsStep dp fb ([p], idx) (mkAsstLine t) = ([{ p with responseRaw := resp }], idx) ∧
      (resp.getD []).length =
        (if (p.responseRaw.getD []).length < MAX_RESPONSE_LENGTH then
           min (addLen (p.responseRaw.getD []).length t.length) MAX_RESPONSE_LENGTH
         else (p.responseRaw.getD []).length) := by
  rw [promptsStep_mkAsst_reduce]
  simp only [List.getLast?_singleton, List.dropLast_single, List.nil_append]
  rw [if_pos ht]
  by_cases h1 : (p.responseRaw.getD []).length < MAX_RESPONSE_LENGTH
  · rw [if_pos h1, if_pos h1]
    exact ⟨some (respNew (p.responseRaw.getD []) t), rfl, by
      simp [respNew_length]⟩
  · rw [if_neg h1, if_neg h1]
    exact ⟨p.responseRaw, rfl, rfl⟩

theorem capLen_cons (cur a : Nat) (l : List Nat) :
    capLen cur (a :: l)
      = if cur < MAX_RESPONSE_LENGTH then
          capLen (min (addLen cur a) MAX_RESPONSE_LENGTH) l
        else cur := rfl

theorem capLen_of_ge (lens : List Nat) (cur : Nat) (h : ¬cur < MAX_RESPONSE_LENGTH) :
    capLen cur lens = cur := by
  cases lens with
  | nil => rfl
  | cons a l => rw [capLen_cons, if_neg h]

theorem addLen_ge (cur a : Nat) : cur ≤ addLen cur a := by
  unfold addLen
  split <;> omega

theorem foldl_addLen_ge (lens : List Nat) (cur : Nat) :
    cur ≤ List.foldl addLen cur lens := by
  induction lens generalizing cur with
  | nil => simp
  | cons a l ih => exact Nat.le_trans (addLen_ge cur a) (by simpa using ih (addLen cur a))

theorem capLen_eq_min (lens : List Nat) :
    ∀ cur, cur ≤ MAX_RESPONSE_LENGTH →
      capLen cur lens = min (List.foldl addLen cur lens) MAX_RESPONSE_LENGTH := by
  induction lens with
  | nil =>
    intro cur h
    simp [capLen]
    omega
  | cons a lens ih =>
    intro cur h
    rw [capLen_cons, List.foldl_cons]
    by_cases h1 : cur < MAX_RESPONSE_LENGTH
    · rw [if_pos h1, ih _ (Nat.min_le_right _ _)]
      by_cases h2 : addLen cur a ≤ MAX_RESPONSE_LENGTH
      · rw [Nat.min_eq_left h2]
      · have hmin : min (addLen cur a) MAX_RESPONSE_LENGTH = MAX_RESPONSE_LENGTH := by omega
        rw [hmin]
        have g1 := foldl_addLen_ge lens MAX_RESPONSE_LENGTH
        have g2 := foldl_addLen_ge lens (addLen cur a)
        omega
    · rw [if_neg h1]
      have g := foldl_addLen_ge lens (addLen cur a)
      have g2 := addLen_ge cur a
      omega

theorem foldl_addLen_pos (lens : List Nat) :
    ∀ cur, 0 < cur →
      List.foldl addLen cur lens = cur + (lens.map (· + 1)).sum := by
  induction lens with
  | nil => intro cur h; simp
  | cons a l ih =>
    intro cur h
    rw [List.foldl_cons]
    have ha : addLen cur a = cur + 1 + a := by
      unfold addLen
      rw [if_neg (by omega)]
    rw [ih (addLen cur a) (by omega), ha]
    simp
    omega

theorem joinSep_length_cons (t : Str) (rest : List Str) :
    (joinSep (t :: rest)).length = t.length + ((rest.map (fun x => x.length + 1)).sum) := by
  induction rest generalizing t with
  | nil => simp [joinSep]
  | cons u rs ih =>
    have : joinSep (t :: u :: rs) = t ++ '\n' :: joinSep (u :: rs) := rfl
    rw [this]
    simp only [List.length_append, List.length_cons, ih u, List.map_cons, List.sum_cons]
    omega

theorem joinSep_length (ts : List Str) (h : ∀ t ∈ ts, t ≠ []) :
    (joinSep ts).length = List.foldl addLen 0 (ts.map List.length) := by
  cases ts with
  | nil => rfl
  | cons t rest =>
    rw [joinSep_length_cons, List.map_cons, List.foldl_cons]
    have ha : addLen 0 t.length = t.length := by
      unfold addLen
      rw [if_pos rfl]
    rw [ha]
    have hpos : 0 < t.length := by
      have := h t (by simp)
      cases hl : t with
      | nil => exact absurd hl this
      | cons c cs => simp [hl]
    rw [foldl_addLen_pos _ _ hpos, List.map_map]
    rfl

theorem trim_ne_imp_ne {t : Str} (h : ¬(trimWs t).length = 0) : t ≠ [] := by
  intro hnil
  subst hnil
  exact h rfl

theorem foldl_promptsStep_asst (dp : Str → Option Int) (fb : Str) (ts : List Str) :
    ∀ (p : SessionPrompt) (idx : Nat), (∀ t ∈ ts, ¬(trimWs t).length = 0) →
      ∃ resp : Option Str,
        List.foldl (promptsStep dp fb) ([p], idx) (ts.map mkAsstLine)
          = ([{ p with responseRaw := resp }], idx) ∧
        (resp.getD []).length
          = capLen (p.responseRaw.getD []).length (ts.map List.length) := by
  induction ts with
  | nil =>
    intro p idx h
    exact ⟨p.responseRaw, rfl, rfl⟩
  | cons t ts ih =>
    intro p idx h
    have ht : ¬(trimWs t).length = 0 := h t (by simp)
    obtain ⟨r1, he1, hl1⟩ := promptsStep_asst_single dp fb p idx t ht
    rw [List.map_cons, List.foldl_cons, he1]
    obtain ⟨resp, he2, hl2⟩ := ih { p with responseRaw := r1 } idx
      (fun x hx => h x (by simp [hx]))
    refine ⟨resp, he2, ?_⟩
    rw [hl2]
    show capLen (r1.getD []).length (ts.map List.length)
      = capLen (p.responseRaw.getD []).length ((t :: ts).map List.length)
    rw [List.map_cons, capLen_cons]
    by_cases h1 : (p.responseRaw.getD []).length < MAX_RESPONSE_LENGTH
    · rw [if_pos h1]
      rw [if_pos h1] at hl1
      rw [hl1]
    · rw [if_neg h1]
      rw [if_neg h1] at hl1
      rw [hl1]
      exact capLen_of_ge _ _ h1

theorem promptsStep_user_start (dp : Str → Option Int) (fb u : Str)
    (hu1 : ¬(trimWs u).length = 0) (hu2 : isDisplayableUserPrompt u = true) :
    promptsStep dp fb ([], 0) (mkUserLine u)
      = ([{ promptId := fb ++ ':' :: (Nat.repr 0).data
            sessionId := fb
            promptRaw := u
            promptTitle := buildTitle u fb
            responseRaw := none
            timestampIso := none
            timestampMs := none }], 1) := by
  rw [promptsStep_mkUser_reduce, if_neg hu1, if_neg (by simp [hu2])]
  rfl

theorem promptsStep_shape (dp : Str → Option Int) (fb : Str)
    (st : List SessionPrompt × Nat) (l : Line) :
    (promptsStep dp fb st l).1 = st.1 ∨
    (∃ prev resp, st.1.getLast? = some prev ∧ resp.length ≤ MAX_RESPONSE_LENGTH ∧
      (promptsStep dp fb st l).1 = st.1.dropLast ++ [{ prev with responseRaw := some resp }]) ∨
    (∃ q : SessionPrompt, q.responseRaw = none ∧ (promptsStep dp fb st l).1 = st.1 ++ [q]) := by
  obtain ⟨prompts, idx⟩ := st
  cases l with
  | bad => exact Or.inl rfl
  | record r =>
    simp only [promptsStep]
    by_cases hA : r.type = some "assistant".data ∧ recRole r = some "assistant".data
    · rw [if_pos hA]
      cases hg : prompts.getLast? with
      | none => exact Or.inl rfl
      | some prev =>
        dsimp only
        split_ifs with hT hL hE hO <;>
          first
            | exact Or.inl rfl
            | (refine Or.inr (Or.inl ⟨prev, _, rfl, ?_, rfl⟩);
                first
                  | (rw [List.length_take]; omega)
                  | omega)
    · rw [if_neg hA]
      by_cases hU : r.type = some "user".data ∧ recRole r = some "user".data
      · rw [if_pos hU]
        split_ifs with hT hD
        · exact Or.inl rfl
        · exact Or.inl rfl
        · exact Or.inr (Or.inr ⟨_, rfl, rfl⟩)
      · rw [if_neg hU]
        exact Or.inl rfl

theorem parseAllUserPrompts_resp_le (dp : Str → Option Int) (lines : List Line) (fb : Str) :
    ∀ q ∈ parseAllUserPrompts dp lines fb,
      (q.responseRaw.getD []).length ≤ MAX_RESPONSE_LENGTH := by
  suffices h : ∀ st : List SessionPrompt × Nat,
      (∀ q ∈ st.1, (q.responseRaw.getD []).length ≤ MAX_RESPONSE_LENGTH) →
      ∀ q ∈ (List.foldl (promptsStep dp fb) st lines).1,
        (q.responseRaw.getD []).length ≤ MAX_RESPONSE_LENGTH by
    exact h ([], 0) (by simp)
  induction lines with
  | nil => intro st h q hq; exact h q hq
  | cons l rest ih =>
    intro st h q hq
    rw [List.foldl_cons] at hq
    refine ih (promptsStep dp fb st l) ?_ q hq
    intro x hx
    rcases promptsStep_shape dp fb st l with he | ⟨prev, resp, hg, hb, he⟩ | ⟨p, hp, he⟩
    · rw [he] at hx
      exact h x hx
    · rw [he] at hx
      rcases List.mem_append.mp hx with hx | hx
      · exact h x ((List.dropLast_sublist st.1).subset hx)
      · have : x = { prev with responseRaw := some resp } := by simpa using hx
        rw [this]
        simpa using hb
    · rw [he] at hx
      rcases List.mem_append.mp hx with hx | hx
      · exact h x hx
      · have : x = p := by simpa using hx
        rw [this, hp]
        simp [MAX_RESPONSE_LENGTH]

theorem promptsStep_user_start_ex (dp : Str → Option Int) (fb u : Str)
    (hu1 : ¬(trimWs u).length = 0) (hu2 : isDisplayableUserPrompt u = true) :
    ∃ p0 : SessionPrompt, promptsStep dp fb ([], 0) (mkUserLine u) = ([p0], 1) ∧
      p0.responseRaw = none := by
  rw [promptsStep_user_start dp fb u hu1 hu2]
  exact ⟨_, rfl, rfl⟩

/-- C5: with one displayable user prompt followed by a run of assistant
records with non-blank text, `parseAllUserPrompts` emits exactly one prompt
whose `responseRaw` length equals the newline-joined assistant text length
capped at 50,000 — in particular exactly 50,000 once the joined length
reaches the cap, with further assistant text dropped — and no prompt of any
parse ever carries a response longer than 50,000 characters. -/
theorem C5_response_cap (dp : Str → Option Int) (fb u : Str) (ts : List Str)
    (hu1 : ¬(trimWs u).length = 0) (hu2 : isDisplayableUserPrompt u = true)
    (hts : ∀ t ∈ ts, ¬(trimWs t).length = 0) :
    (∃ p : SessionPrompt,
      parseAllUserPrompts dp (mkUserLine u :: ts.map mkAsstLine) fb = [p] ∧
      (p.responseRaw.getD []).length = min (joinSep ts).length MAX_RESPONSE_LENGTH ∧
      (MAX_RESPONSE_LENGTH ≤ (joinSep ts).length →
        (p.responseRaw.getD []).length = MAX_RESPONSE_LENGTH)) ∧
    (∀ (lines : List Line) (fb2 : Str), ∀ q ∈ parseAllUserPrompts dp lines fb2,
      (q.responseRaw.getD []).length ≤ MAX_RESPONSE_LENGTH) := by
  constructor
  · unfold parseAllUserPrompts
    obtain ⟨p0, hstart, hp0⟩ := promptsStep_user_start_ex dp fb u hu1 hu2
    rw [List.foldl_cons, hstart]
    obtain ⟨resp, he, hl⟩ := foldl_promptsStep_asst dp fb ts p0 1 hts
    have hlen : (resp.getD []).length = min (joinSep ts).length MAX_RESPONSE_LENGTH := by
      rw [hl, hp0]
      show capLen 0 (ts.map List.length) = min (joinSep ts).length MAX_RESPONSE_LENGTH
      rw [capLen_eq_min _ 0 (by norm_num [MAX_RESPONSE_LENGTH]),
        joinSep_length ts (fun t ht => trim_ne_imp_ne (hts t ht))]
    refine ⟨{ p0 with responseRaw := resp }, ?_, ?_, ?_⟩
    · rw [he]
    · show (resp.getD []).length = min (joinSep ts).length MAX_RESPONSE_LENGTH
      exact hlen
    · intro hge
      show (resp.getD []).length = MAX_RESPONSE_LENGTH
      rw [hlen]
      omega
  · intro lines fb2 q hq
    exact parseAllUserPrompts_resp_le dp lines fb2 q hq

/-- Witness for C5 at a small concrete transcript (one user prompt, two
short assistant chunks). -/
theorem C5_response_cap_witness :
    (∃ p : SessionPrompt,
      parseAllUserPrompts (fun _ => none)
          (mkUserLine "hi".data :: (["aa".data, "bb".data]).map mkAsstLine) "s".data = [p] ∧
      (p.responseRaw.getD []).length
        = min (joinSep ["aa".data, "bb".data]).length MAX_RESPONSE_LENGTH ∧
      (MAX_RESPONSE_LENGTH ≤ (joinSep ["aa".data, "bb".data]).length →
        (p.responseRaw.getD []).length = MAX_RESPONSE_LENGTH)) :=
  (C5_response_cap (fun _ => none) "s".data "hi".data ["aa".data, "bb".data]
    (by decide) (by decide) (by decide)).1

/-! ## Claims C9 and C7: getUserPrompts -/

/-- C9: when stat of the session's transcript path fails, `getUserPrompts`
logs the failure, returns an empty list, never throws (it is a total
function), and leaves the prompt cache unchanged. -/
theorem C9_getUserPrompts_stat_failure (dateParse : Str → Option Int)
    (cache : List (Str × CachedPromptList)) (lines : List Line) (session : SessionNode) :
    getUserPrompts dateParse cache none lines session
      = { prompts := [], cache := cache, reparsed := false, loggedStatFailure := true } := rfl

theorem alGet_cons_self {α : Type} (k : Str) (v : α) (rest : List (Str × α)) :
    alGet ((k, v) :: rest) k = some v := by
  simp [alGet]

theorem alGet_set_self {α : Type} (m : List (Str × α)) (k : Str) (v : α) :
    alGet (alSet m k v) k = some v := by
  induction m with
  | nil => simp [alSet, alGet]
  | cons kv rest ih =>
    obtain ⟨k0, v0⟩ := kv
    by_cases h : k0 = k
    · simp [alSet, alGet, h]
    · simp [alSet, alGet, h, ih]

theorem alSet_cons_self {α : Type} (k : Str) (v0 v : α) (rest : List (Str × α)) :
    alSet ((k, v0) :: rest) k v = (k, v) :: rest := by
  simp [alSet]

theorem getUserPrompts_cache_entry (dateParse : Str → Option Int)
    (cache : List (Str × CachedPromptList)) (m : Nat) (lines : List Line)
    (s : SessionNode) :
    alGet (getUserPrompts dateParse cache (some m) lines s).cache s.transcriptPath
      = some { mtimeMs := m,
               prompts := (getUserPrompts dateParse cache (some m) lines s).prompts } := by
  unfold getUserPrompts
  cases hc : alGet cache s.transcriptPath with
  | none =>
    simp only [hc]
    exact alGet_set_self _ _ _
  | some c =>
    simp only [hc]
    by_cases he : c.mtimeMs = m
    · rw [if_pos he]
      dsimp only
      rw [hc, ← he]
    · rw [if_neg he]
      dsimp only
      exact alGet_set_self _ _ _

/-- C7: for a fixed transcript path, a second `getUserPrompts` call with an
unchanged mtime does not re-run the line-parsing pass, returns the same
prompt list, and leaves the cache unchanged; a call with a different mtime
re-parses the (possibly new) lines and overwrites the cache entry under the
new mtime. -/
theorem C7_getUserPrompts_mtime_gate (dateParse : Str → Option Int)
    (cache : List (Str × CachedPromptList)) (m m' : Nat)
    (lines lines2 : List Line) (s : SessionNode) (hne : m' ≠ m) :
    (getUserPrompts dateParse (getUserPrompts dateParse cache (some m) lines s).cache
        (some m) lines s
      = { prompts := (getUserPrompts dateParse cache (some m) lines s).prompts,
          cache := (getUserPrompts dateParse cache (some m) lines s).cache,
          reparsed := false, loggedStatFailure := false }) ∧
    ((getUserPrompts dateParse (getUserPrompts dateParse cache (some m) lines s).cache
        (some m') lines2 s).reparsed = true ∧
     (getUserPrompts dateParse (getUserPrompts dateParse cache (some m) lines s).cache
        (some m') lines2 s).prompts = parseAllUserPrompts dateParse lines2 s.sessionId ∧
     alGet (getUserPrompts dateParse (getUserPrompts dateParse cache (some m) lines s).cache
        (some m') lines2 s).cache s.transcriptPath
       = some { mtimeMs := m',
                prompts := parseAllUserPrompts dateParse lines2 s.sessionId }) := by
  have hent := getUserPrompts_cache_entry dateParse cache m lines s
  constructor
  · conv_lhs => rw [getUserPrompts]
    rw [hent]
    dsimp only
    rw [if_pos rfl]
  · generalize hR : getUserPrompts dateParse cache (some m) lines s = R at hent ⊢
    have hmiss : getUserPrompts dateParse R.cache (some m') lines2 s
        = { prompts := parseAllUserPrompts dateParse lines2 s.sessionId,
            cache := alSet R.cache s.transcriptPath
              { mtimeMs := m', prompts := parseAllUserPrompts dateParse lines2 s.sessionId },
            reparsed := true, loggedStatFailure := false } := by
      unfold getUserPrompts
      rw [hent]
      dsimp only
      rw [if_neg (by simpa using (Ne.symm hne))]
    rw [hmiss]
    exact ⟨rfl, rfl, alGet_set_self _ _ _⟩

/-- Witness for C7 at a concrete session and cache. -/
theorem C7_getUserPrompts_mtime_gate_witness :
    (getUserPrompts (fun _ => none)
        (getUserPrompts (fun _ => none) [] (some 1) []
          { sessionId := "s".data, cwd := "/w".data, transcriptPath := "/t".data, title := [], updatedAt := 0 }).cache
        (some 1) []
        { sessionId := "s".data, cwd := "/w".data, transcriptPath := "/t".data, title := [], updatedAt := 0 }).reparsed
      = false ∧
    (getUserPrompts (fun _ => none)
        (getUserPrompts (fun _ => none) [] (some 1) []
          { sessionId := "s".data, cwd := "/w".data, transcriptPath := "/t".data, title := [], updatedAt := 0 }).cache
        (some 2) []
        { sessionId := "s".data, cwd := "/w".data, transcriptPath := "/t".data, title := [], updatedAt := 0 }).reparsed
      = true := by
  have h := C7_getUserPrompts_mtime_gate (fun _ => none) [] 1 2 [] []
    { sessionId := "s".data, cwd := "/w".data, transcriptPath := "/t".data, title := [], updatedAt := 0 }
    (by decide)
  exact ⟨by rw [h.1], h.2.1⟩

/-! ## Claim C10: discover key set -/

theorem alKeys_set_mem {α : Type} (m : List (Str × α)) (k : Str) (v : α) (k' : Str) :
    k' ∈ alKeys (alSet m k v) ↔ k' ∈ alKeys m ∨ k' = k := by
  induction m with
  | nil => simp [alSet, alKeys]
  | cons kv rest ih =>
    obtain ⟨k0, v0⟩ := kv
    by_cases h : k0 = k
    · subst h
      have e : alSet ((k0, v0) :: rest) k0 v = (k0, v) :: rest := by simp [alSet]
      rw [e]
      simp only [alKeys, List.map_cons, List.mem_cons]
      tauto
    · have e : alSet ((k0, v0) :: rest) k v = (k0, v0) :: alSet rest k v := by
        simp [alSet, h]
      rw [e]
      simp only [alKeys] at ih
      simp only [alKeys, List.map_cons, List.mem_cons]
      rw [ih]
      tauto

theorem mem_keys_foldl {α : Type} (f : List (Str × α) → WFolder → List (Str × α))
    (hf : ∀ m w k, k ∈ alKeys (f m w) ↔ k ∈ alKeys m ∨ k = w.uriKey)
    (folders : List WFolder) :
    ∀ (m : List (Str × α)) (k : Str),
      k ∈ alKeys (folders.foldl f m) ↔ k ∈ alKeys m ∨ k ∈ folders.map (·.uriKey) := by
  induction folders with
  | nil => intro m k; simp
  | cons w ws ih =>
    intro m k
    rw [List.foldl_cons, ih (f m w) k, hf m w k]
    simp only [List.map_cons, List.mem_cons]
    tauto

/-- C10: the key set of `discover`'s `sessionsByWorkspace` map equals
exactly the URI strings of the provided workspace folders, on every path
(empty folder list, missing projects root, and the main pipeline): every
provided folder has an entry, and no other key exists. -/
theorem C10_discover_keys (osCwd projectsRoot : Str) (workspaceFolders : List WFolder)
    (rootExists : Bool) (files : List FileEntry) (k : Str) :
    k ∈ alKeys (discover osCwd projectsRoot workspaceFolders rootExists files).sessionsByWorkspace
      ↔ k ∈ workspaceFolders.map (·.uriKey) := by
  have hm0 : k ∈ alKeys (workspaceFolders.foldl
        (fun m w => alSet m w.uriKey ([] : List SessionNode)) ([] : List (Str × List SessionNode)))
      ↔ k ∈ workspaceFolders.map (·.uriKey) := by
    rw [mem_keys_foldl _ (fun m w k' => alKeys_set_mem m w.uriKey _ k') workspaceFolders]
    simp [alKeys]
  unfold discover
  by_cases hempty : workspaceFolders.isEmpty
  · rw [if_pos hempty]
    exact hm0
  · rw [if_neg hempty]
    by_cases hroot : rootExists
    · rw [if_neg (by simp [hroot])]
      dsimp only
      rw [mem_keys_foldl _ (fun m w k' => alKeys_set_mem m w.uriKey _ k') workspaceFolders]
      rw [hm0]
      tauto
    · rw [if_pos (by simp [hroot])]
      exact hm0

/-! ## Claim C6: deduplication by session id in discover -/

/-- C6: when two transcript files under the same matched workspace folder
parse to the same session id with different file modification times,
`discover` produces exactly one `SessionNode` for that session id within
that folder, and its `transcriptPath` and `updatedAt` are those of the file
with the greater modification time, whichever of the two files is processed
first. -/
theorem C6_discover_dedup (osCwd projectsRoot : Str) (w : WFolder)
    (f g : FileEntry) (pf pg : ParsedSession) (mf mg : Nat)
    (hpf : parseTranscriptFile f.lines = some pf)
    (hpg : parseTranscriptFile g.lines = some pg)
    (hmf : f.statMtime = some mf) (hmg : g.statMtime = some mg)
    (hsid : pg.sessionId = pf.sessionId) (hne : mf ≠ mg)
    (hwf : matchWorkspace osCwd pf.cwd [w] = some w)
    (hwg : matchWorkspace osCwd pg.cwd [w] = some w) :
    ∃ n : SessionNode,
      alGet (discover osCwd projectsRoot [w] true [f, g]).sessionsByWorkspace w.uriKey
          = some [n]
        ∧ n.sessionId = pf.sessionId
        ∧ n.transcriptPath = (if mf < mg then g.path else f.path)
        ∧ n.updatedAt = max mf mg := by
  have hcand : discoverCandidates [f, g]
      = [⟨f.path, mf, pf⟩, ⟨g.path, mg, pg⟩] := by
    simp [discoverCandidates, hpf, hpg, hmf, hmg]
  have hd1 : dedupStep osCwd [w] [(w.uriKey, [])] ⟨f.path, mf, pf⟩
      = [(w.uriKey, [(pf.sessionId, candidateNode ⟨f.path, mf, pf⟩)])] := by
    simp [dedupStep, hwf, alGet, alSet, candidateNode]
  have hd2 : dedupStep osCwd [w]
        [(w.uriKey, [(pf.sessionId, candidateNode ⟨f.path, mf, pf⟩)])] ⟨g.path, mg, pg⟩
      = [(w.uriKey, [(pf.sessionId,
          if mf < mg then candidateNode ⟨g.path, mg, pg⟩
          else candidateNode ⟨f.path, mf, pf⟩)])] := by
    by_cases hlt : mf < mg
    · simp [dedupStep, hwg, alGet, alSet, candidateNode, hsid, hlt]
    · simp [dedupStep, hwg, alGet, alSet, candidateNode, hsid, hlt]
  have hdisc : (discover osCwd projectsRoot [w] true [f, g]).sessionsByWorkspace
      = alSet [(w.uriKey, [])] w.uriKey
          (stableSort (fun a b => decide (b.updatedAt ≤ a.updatedAt))
            (alValues ((alGet ((discoverCandidates [f, g]).foldl (dedupStep osCwd [w])
                [(w.uriKey, ([] : List (Str × SessionNode)))]) w.uriKey).getD []))) := rfl
  rw [hcand, List.foldl_cons, List.foldl_cons, List.foldl_nil, hd1, hd2] at hdisc
  refine ⟨if mf < mg then candidateNode ⟨g.path, mg, pg⟩ else candidateNode ⟨f.path, mf, pf⟩,
    ?_, ?_, ?_, ?_⟩
  · rw [hdisc, alGet_set_self, alGet_cons_self, Option.getD_some]
    rfl
  · by_cases hlt : mf < mg
    · simp [hlt, candidateNode, hsid]
    · simp [hlt, candidateNode]
  · by_cases hlt : mf < mg
    · simp [hlt, candidateNode]
    · simp [hlt, candidateNode]
  · by_cases hlt : mf < mg
    · simp [hlt, candidateNode]
      omega
    · simp [hlt, candidateNode]
      omega

/-- Witness for C6 at two concrete one-line transcript files with mtimes 1
and 2. -/
theorem C6_discover_dedup_witness :
    ∃ n : SessionNode,
      alGet (discover "/".data [] [⟨"file:ws".data, "/ws".data⟩] true
          [⟨"/t1".data, [mkSysLine "s1" "/ws"], some 1⟩,
           ⟨"/t2".data, [mkSysLine "s1" "/ws"], some 2⟩]).sessionsByWorkspace
        "file:ws".data = some [n]
      ∧ n.sessionId = "s1".data
      ∧ n.transcriptPath = (if 1 < 2 then "/t2".data else "/t1".data)
      ∧ n.updatedAt = max 1 2 := by
  exact C6_discover_dedup "/".data [] ⟨"file:ws".data, "/ws".data⟩
    ⟨"/t1".data, [mkSysLine "s1" "/ws"], some 1⟩
    ⟨"/t2".data, [mkSysLine "s1" "/ws"], some 2⟩
    ⟨"s1".data, "/ws".data, []⟩ ⟨"s1".data, "/ws".data, []⟩ 1 2
    (by decide) (by decide) rfl rfl rfl (by decide) (by decide) (by decide)
